import Mathlib

/-!
Shallow embedding of the chessington-python engine
(`chessington/engine/data.py`, `chessington/engine/pieces.py`,
`chessington/engine/board.py`).

Conventions of the embedding:
* Python object identity (used by `Board.find_piece`, which scans with `is`)
  is modelled by a numeric `id` field on `Piece`.
* A Python exception (IndexError on list indexing, AttributeError on
  `None.player`, `random.choice` on an empty list, the explicit raise in
  `find_piece`) is modelled by `Option`: `none` means the call raised.
* Python list indexing semantics (negative indices address from the end,
  indices outside `[-len, len)` raise) are modelled by `pyGet` / `pySet`.
* The `while` loop of `Piece.get_moves_in_direction` is modelled with a
  fuel parameter (17); the loop runs at most 9 iterations whenever the
  start square is occupied, which is proved, not assumed, in the lemmas
  below.
* `random.choice(l)` is modelled by an oracle `k : Nat` selecting
  `l[k % len(l)]`, raising iff `l` is empty.
* `Queen(self.current_player)` inside `move_piece` constructs a fresh
  object; its identity is modelled by an extra parameter `qid`.
-/

namespace Chessington

/-- `Player` enumeration from `data.py`. -/
inductive Player where
  | WHITE : Player
  | BLACK : Player
deriving DecidableEq, Repr

/-- `Player.opponent` from `data.py`. -/
def Player.opponent : Player → Player
  | Player.WHITE => Player.BLACK
  | Player.BLACK => Player.WHITE

/-- The six concrete piece classes of `pieces.py`, as a closed enumeration. -/
inductive PieceKind where
  | pawn | knight | bishop | rook | queen | king
deriving DecidableEq, Repr

/-- A piece object: its class, its `player` and `moved` attributes, and an
`id` modelling Python object identity (used by `Board.find_piece`). -/
structure Piece where
  kind : PieceKind
  player : Player
  moved : Bool
  id : Nat
deriving DecidableEq, Repr

/-- `Square` from `data.py`: an immutable pair of (unbounded) integers. -/
structure Square where
  row : Int
  col : Int
deriving DecidableEq, Repr

/-- `Square.translate_by` from `data.py`. -/
def Square.translate_by (s : Square) (v : Int × Int) : Square :=
  ⟨s.row + v.1, s.col + v.2⟩

/-- `Square.is_on_board` from `data.py`: `0 <= row <= 7 and 0 <= col <= 7`. -/
def Square.is_on_board (s : Square) : Bool :=
  decide (0 ≤ s.row) && decide (s.row ≤ 7) && decide (0 ≤ s.col) && decide (s.col ≤ 7)

/-- Python index normalisation for a list of length `len`: a negative
index addresses from the end (`i + len`); an index outside `[-len, len)`
raises. -/
def pyIdx (len : Nat) (i : Int) : Option Nat :=
  if i < 0 then
    if 0 ≤ i + (len : Int) then some (i + (len : Int)).toNat else none
  else
    if i < (len : Int) then some i.toNat else none

/-- Python list read `xs[i]`. -/
def pyGet {α : Type} (xs : List α) (i : Int) : Option α :=
  (pyIdx xs.length i).bind fun n => xs.get? n

/-- Python list write `xs[i] = a`, with the same index semantics as `pyGet`. -/
def pySet {α : Type} (xs : List α) (i : Int) (a : α) : Option (List α) :=
  (pyIdx xs.length i).map fun n => xs.set n a

/-- `Board` from `board.py`: the grid (`board_state`), `current_player`,
and `last_move` (a tuple `(piece, destination, en_passant_flag)` or `None`). -/
structure Board where
  board : List (List (Option Piece))
  current_player : Player
  last_move : Option (Piece × Square × Bool)
deriving DecidableEq, Repr

/-- `Board.get_piece`: `self.board[square.row][square.col]`.
Outer `none` = IndexError, inner `none` = empty square. -/
def Board.get_piece (b : Board) (sq : Square) : Option (Option Piece) :=
  (pyGet b.board sq.row).bind fun row => pyGet row sq.col

/-- `Board.set_piece`: `self.board[square.row][square.col] = piece`. -/
def Board.set_piece (b : Board) (sq : Square) (p : Option Piece) : Option Board :=
  (pyGet b.board sq.row).bind fun row =>
  (pySet row sq.col p).bind fun row2 =>
  (pySet b.board sq.row row2).map fun g => { b with board := g }

/-- `Board.is_square_empty`: `self.get_piece(square) is None`. -/
def Board.is_square_empty (b : Board) (sq : Square) : Option Bool :=
  (b.get_piece sq).map Option.isNone

/-- `Board.capture_possible`: compares the `player` attributes of the
occupants of the two squares; raises if either square is out of range or
empty (`None.player`). -/
def Board.capture_possible (b : Board) (cur cand : Square) : Option Bool :=
  match b.get_piece cur, b.get_piece cand with
  | some (some p), some (some q) => some (decide (p.player ≠ q.player))
  | _, _ => none

/-- Row-major scan order of `Board.find_piece` and of the loops in
`in_check` / `get_bot_move_squares`: rows then columns over `range(8)`. -/
def boardCoords : List (Nat × Nat) :=
  (List.range 8).flatMap fun r => (List.range 8).map fun c => (r, c)

/-- Scan loop of `Board.find_piece`: returns the first square whose occupant
is the given object (identity modelled by `id`); raises (`none`) when the
scan itself raises or the piece is not found. -/
def findPieceAux (b : Board) (pid : Nat) : List (Nat × Nat) → Option Square
  | [] => none
  | rc :: rest =>
    match b.get_piece ⟨(rc.1 : Int), (rc.2 : Int)⟩ with
    | none => none
    | some none => findPieceAux b pid rest
    | some (some p) =>
      if p.id = pid then some ⟨(rc.1 : Int), (rc.2 : Int)⟩
      else findPieceAux b pid rest

/-- `Board.find_piece` from `board.py`. -/
def Board.find_piece (b : Board) (pid : Nat) : Option Square :=
  findPieceAux b pid boardCoords

/-- The `while` loop of `Piece.get_moves_in_direction` (`pieces.py`,
lines 38-51), started at iteration `distance`.  One fuel unit is spent per
iteration; the loop runs at most 9 iterations whenever the start square is
occupied (proved below), so fuel 17 never runs out in that case.  `none`
means the Python call raised, `some none` at fuel exhaustion is
unreachable under the occupied-start hypothesis used by every lemma. -/
def gmidAux (b : Board) (start : Square) (direction : Int × Int) :
    Nat → Nat → Option (List Square)
  | 0, _ => none
  | fuel + 1, distance =>
    let candidate := start.translate_by
      (direction.1 * (distance : Int), direction.2 * (distance : Int))
    if candidate.is_on_board then
      match b.get_piece candidate with
      | none => none
      | some none =>
        (gmidAux b start direction fuel (distance + 1)).map
          fun rest => candidate :: rest
      | some (some q) =>
        match b.get_piece start with
        | some (some p) =>
          some (if p.player ≠ q.player then [candidate] else [])
        | _ => none
    else some []

/-- `Piece.get_moves_in_direction` from `pieces.py` (the sliding version on
the `Piece` base class, used by Bishop, Rook and Queen): locate the piece
with `find_piece`, then walk the ray. -/
def Piece.get_moves_in_direction (b : Board) (pid : Nat) (direction : Int × Int) :
    Option (List Square) :=
  (b.find_piece pid).bind fun start => gmidAux b start direction 17 1

/-- Single-step body shared verbatim by `Knight.get_moves_in_direction` and
`King.get_moves_in_direction` (`distance = 1`, no loop). -/
def singleStepFrom (b : Board) (start : Square) (direction : Int × Int) :
    Option (List Square) :=
  let candidate := start.translate_by (direction.1 * 1, direction.2 * 1)
  if candidate.is_on_board then
    match b.get_piece candidate with
    | none => none
    | some none => some [candidate]
    | some (some q) =>
      match b.get_piece start with
      | some (some p) =>
        some (if p.player ≠ q.player then [candidate] else [])
      | _ => none
  else some []

/-- `Knight.get_moves_in_direction` from `pieces.py`. -/
def Knight.get_moves_in_direction (b : Board) (pid : Nat) (direction : Int × Int) :
    Option (List Square) :=
  (b.find_piece pid).bind fun start => singleStepFrom b start direction

/-- `King.get_moves_in_direction` from `pieces.py` (identical body to the
Knight version). -/
def King.get_moves_in_direction (b : Board) (pid : Nat) (direction : Int × Int) :
    Option (List Square) :=
  (b.find_piece pid).bind fun start => singleStepFrom b start direction

/-- `Knight.get_upright_moves`: `up_moves + right_moves` with
`up = (2, 1)`, `right = (1, 2)`. -/
def Knight.get_upright_moves (b : Board) (pid : Nat) : Option (List Square) :=
  (Knight.get_moves_in_direction b pid (1, 2)).bind fun right_moves =>
  (Knight.get_moves_in_direction b pid (2, 1)).map fun up_moves =>
  up_moves ++ right_moves

/-- `Knight.get_downright_moves`: `down_moves + right_moves` with
`down = (-2, 1)`, `right = (-1, 2)`. -/
def Knight.get_downright_moves (b : Board) (pid : Nat) : Option (List Square) :=
  (Knight.get_moves_in_direction b pid (-1, 2)).bind fun right_moves =>
  (Knight.get_moves_in_direction b pid (-2, 1)).map fun down_moves =>
  down_moves ++ right_moves

/-- `Knight.get_downleft_moves`: `left_moves + down_moves` with
`left = (-1, -2)`, `down = (-2, -1)`. -/
def Knight.get_downleft_moves (b : Board) (pid : Nat) : Option (List Square) :=
  (Knight.get_moves_in_direction b pid (-1, -2)).bind fun left_moves =>
  (Knight.get_moves_in_direction b pid (-2, -1)).map fun down_moves =>
  left_moves ++ down_moves

/-- `Knight.get_upleft_moves`: `up_moves + left_moves` with
`up = (2, -1)`, `left = (1, -2)`. -/
def Knight.get_upleft_moves (b : Board) (pid : Nat) : Option (List Square) :=
  (Knight.get_moves_in_direction b pid (1, -2)).bind fun left_moves =>
  (Knight.get_moves_in_direction b pid (2, -1)).map fun up_moves =>
  up_moves ++ left_moves

/-- `Knight.get_available_moves` from `pieces.py`. -/
def Knight.get_available_moves (b : Board) (pid : Nat) : Option (List Square) :=
  (Knight.get_upright_moves b pid).bind fun m1 =>
  (Knight.get_downright_moves b pid).bind fun m2 =>
  (Knight.get_downleft_moves b pid).bind fun m3 =>
  (Knight.get_upleft_moves b pid).map fun m4 =>
  m1 ++ m2 ++ m3 ++ m4

/-- `get_fs_moves` (forward-slash diagonal), shared text of Bishop, Queen:
`up_moves + down_moves` with `up = (1, 1)`, `down = (-1, -1)`,
via the sliding `Piece.get_moves_in_direction`. -/
def slidingFsMoves (b : Board) (pid : Nat) : Option (List Square) :=
  (Piece.get_moves_in_direction b pid (1, 1)).bind fun up_moves =>
  (Piece.get_moves_in_direction b pid (-1, -1)).map fun down_moves =>
  up_moves ++ down_moves

/-- `get_bs_moves` (back-slash diagonal) of Bishop, Queen:
`(-1, 1)` then `(1, -1)`. -/
def slidingBsMoves (b : Board) (pid : Nat) : Option (List Square) :=
  (Piece.get_moves_in_direction b pid (-1, 1)).bind fun up_moves =>
  (Piece.get_moves_in_direction b pid (1, -1)).map fun down_moves =>
  up_moves ++ down_moves

/-- `get_vertical_moves` of Rook, Queen: `(1, 0)` then `(-1, 0)`. -/
def slidingVerticalMoves (b : Board) (pid : Nat) : Option (List Square) :=
  (Piece.get_moves_in_direction b pid (1, 0)).bind fun up_moves =>
  (Piece.get_moves_in_direction b pid (-1, 0)).map fun down_moves =>
  up_moves ++ down_moves

/-- `get_horizontal_moves` of Rook, Queen: `(0, 1)` then `(0, -1)`. -/
def slidingHorizontalMoves (b : Board) (pid : Nat) : Option (List Square) :=
  (Piece.get_moves_in_direction b pid (0, 1)).bind fun right_moves =>
  (Piece.get_moves_in_direction b pid (0, -1)).map fun left_moves =>
  right_moves ++ left_moves

/-- `Bishop.get_available_moves` from `pieces.py`. -/
def Bishop.get_available_moves (b : Board) (pid : Nat) : Option (List Square) :=
  (slidingFsMoves b pid).bind fun m1 =>
  (slidingBsMoves b pid).map fun m2 =>
  m1 ++ m2

/-- `Rook.get_available_moves` from `pieces.py`. -/
def Rook.get_available_moves (b : Board) (pid : Nat) : Option (List Square) :=
  (slidingVerticalMoves b pid).bind fun m1 =>
  (slidingHorizontalMoves b pid).map fun m2 =>
  m1 ++ m2

/-- `Queen.get_available_moves` from `pieces.py`. -/
def Queen.get_available_moves (b : Board) (pid : Nat) : Option (List Square) :=
  (slidingFsMoves b pid).bind fun m1 =>
  (slidingBsMoves b pid).bind fun m2 =>
  (slidingVerticalMoves b pid).bind fun m3 =>
  (slidingHorizontalMoves b pid).map fun m4 =>
  m1 ++ m2 ++ m3 ++ m4

/-- `King.get_fs_moves` (single-step diagonal, via the King override of
`get_moves_in_direction`). -/
def King.get_fs_moves (b : Board) (pid : Nat) : Option (List Square) :=
  (King.get_moves_in_direction b pid (1, 1)).bind fun up_moves =>
  (King.get_moves_in_direction b pid (-1, -1)).map fun down_moves =>
  up_moves ++ down_moves

/-- `King.get_bs_moves`. -/
def King.get_bs_moves (b : Board) (pid : Nat) : Option (List Square) :=
  (King.get_moves_in_direction b pid (-1, 1)).bind fun up_moves =>
  (King.get_moves_in_direction b pid (1, -1)).map fun down_moves =>
  up_moves ++ down_moves

/-- `King.get_vertical_moves`. -/
def King.get_vertical_moves (b : Board) (pid : Nat) : Option (List Square) :=
  (King.get_moves_in_direction b pid (1, 0)).bind fun up_moves =>
  (King.get_moves_in_direction b pid (-1, 0)).map fun down_moves =>
  up_moves ++ down_moves

/-- `King.get_horizontal_moves`. -/
def King.get_horizontal_moves (b : Board) (pid : Nat) : Option (List Square) :=
  (King.get_moves_in_direction b pid (0, 1)).bind fun right_moves =>
  (King.get_moves_in_direction b pid (0, -1)).map fun left_moves =>
  right_moves ++ left_moves

/-- `King.get_available_moves` from `pieces.py`: the four single-step
groups only — the castling generation (`can_castle` and
`check_castle_is_free`) is commented out in the source. -/
def King.get_available_moves (b : Board) (pid : Nat) : Option (List Square) :=
  (King.get_fs_moves b pid).bind fun m1 =>
  (King.get_bs_moves b pid).bind fun m2 =>
  (King.get_vertical_moves b pid).bind fun m3 =>
  (King.get_horizontal_moves b pid).map fun m4 =>
  m1 ++ m2 ++ m3 ++ m4

/-- `Pawn.is_at_start_position` from `pieces.py`: a pure row test on the
piece's player; the `moved` flag is not consulted. -/
def Pawn.is_at_start_position (p : Piece) (current_square : Square) : Bool :=
  (decide (p.player = Player.WHITE) && decide (current_square.row = 1)) ||
  (decide (p.player = Player.BLACK) && decide (current_square.row = 6))

/-- `Pawn.check_diagonal` from `pieces.py`. -/
def Pawn.check_diagonal (b : Board) (start_square candidate_square : Square) :
    Option (List Square) :=
  if candidate_square.is_on_board then
    (b.is_square_empty candidate_square).bind fun e =>
    if e then some []
    else
      (b.capture_possible start_square candidate_square).map fun cp =>
      if cp then [⟨candidate_square.row, candidate_square.col⟩] else []
  else some []

/-- The forward (non-capturing) part of `Pawn.get_available_moves`
(`pieces.py` lines 69-78): the one-step destination if empty, plus the
two-step destination from the start rank.  Note that in the two-step test
the source writes `candidate_square.is_on_board() &
board.is_square_empty(candidate_square)`: Python's `&` evaluates both
operands, so `is_square_empty` is evaluated even off-board (it can raise
only if the index is out of the wrap-around range). -/
def Pawn.forward_moves (b : Board) (p : Piece) (start_square : Square) :
    Option (List Square) :=
  let direction : Int := if p.player = Player.WHITE then 1 else -1
  let c1 : Square := ⟨start_square.row + direction, start_square.col⟩
  if c1.is_on_board then
    (b.is_square_empty c1).bind fun e1 =>
    if e1 then
      let c2 : Square := ⟨c1.row + direction, c1.col⟩
      if Pawn.is_at_start_position p start_square then
        (b.is_square_empty c2).map fun e2 =>
        if c2.is_on_board && e2 then
          [⟨c1.row, c1.col⟩, ⟨c2.row, c2.col⟩]
        else [⟨c1.row, c1.col⟩]
      else some [⟨c1.row, c1.col⟩]
    else some []
  else some []

/-- The body of `Pawn.get_available_moves` from `pieces.py`: forward
moves plus the two diagonal-capture checks. -/
def Pawn.moves_from (b : Board) (p : Piece) (start_square : Square) :
    Option (List Square) :=
  let direction : Int := if p.player = Player.WHITE then 1 else -1
  (Pawn.forward_moves b p start_square).bind fun moves =>
  (Pawn.check_diagonal b start_square
      ⟨start_square.row + direction, start_square.col + 1⟩).bind fun dr =>
  (Pawn.check_diagonal b start_square
      ⟨start_square.row + direction, start_square.col - 1⟩).map fun dl =>
  moves ++ dr ++ dl

/-- `Pawn.get_available_moves` = locate the pawn, then the body above. -/
def Pawn.get_available_moves (b : Board) (p : Piece) : Option (List Square) :=
  (b.find_piece p.id).bind fun start_square => Pawn.moves_from b p start_square

/-- Dynamic dispatch of `piece.get_available_moves(board)` over the six
concrete classes. -/
def Piece.get_available_moves (b : Board) (p : Piece) : Option (List Square) :=
  match p.kind with
  | PieceKind.pawn => Pawn.get_available_moves b p
  | PieceKind.knight => Knight.get_available_moves b p.id
  | PieceKind.bishop => Bishop.get_available_moves b p.id
  | PieceKind.rook => Rook.get_available_moves b p.id
  | PieceKind.queen => Queen.get_available_moves b p.id
  | PieceKind.king => King.get_available_moves b p.id

/-- `Board.handle_castling` from `board.py`: if the moved piece is a King
displaced by more than one column, relocate the corner rook of the
destination row (column 0 → 3 when `to.col == 2`, else column 7 → 5). -/
def Board.handle_castling (b : Board) (from_square to_square : Square) (piece : Piece) :
    Option Board :=
  if piece.kind ≠ PieceKind.king then some b
  else if 1 < (from_square.col - to_square.col).natAbs then
    if to_square.col = 2 then
      (b.get_piece ⟨to_square.row, 0⟩).bind fun rook =>
      (b.set_piece ⟨to_square.row, 3⟩ rook).bind fun b1 =>
      b1.set_piece ⟨to_square.row, 0⟩ none
    else
      (b.get_piece ⟨to_square.row, 7⟩).bind fun rook =>
      (b.set_piece ⟨to_square.row, 5⟩ rook).bind fun b1 =>
      b1.set_piece ⟨to_square.row, 7⟩ none
  else some b

/-- `Board.handle_en_passant` from `board.py`: if the previous move was
flagged as a double-step and its destination shares its row with
`from_square` and its column with `to_square`, clear that destination. -/
def Board.handle_en_passant (b : Board) (from_square to_square : Square) :
    Option Board :=
  match b.last_move with
  | none => some b
  | some lm =>
    if lm.2.2 && decide (lm.2.1.row = from_square.row) then
      if lm.2.1.col = to_square.col then b.set_piece lm.2.1 none
      else some b
    else some b

/-- Lines 144-145 of `board.py`: if the moving piece is a Pawn and the
destination row is 0 or 7, the piece placed is a freshly constructed
`Queen(self.current_player)` (identity `qid`); otherwise it is the moving
piece itself. -/
def movingPieceAfterPromotion (b : Board) (piece0 : Piece) (to_square : Square)
    (qid : Nat) : Piece :=
  if piece0.kind = PieceKind.pawn && (to_square.row = 0 || to_square.row = 7)
  then (⟨PieceKind.queen, b.current_player, false, qid⟩ : Piece)
  else piece0

/-- `Board.move_piece` from `board.py`.  `qid` models the identity of the
`Queen(self.current_player)` object freshly constructed on promotion.
The Python attribute write `moving_piece.moved = True` after placement is
modelled by placing (and recording in `last_move`) the piece with
`moved := true`, since it is the same object. -/
def Board.move_piece (b : Board) (from_square to_square : Square) (qid : Nat) :
    Option Board :=
  (b.get_piece from_square).bind fun moving =>
  match moving with
  | none => some b
  | some piece0 =>
    if piece0.player = b.current_player then
      let piece := movingPieceAfterPromotion b piece0 to_square qid
      (b.handle_castling from_square to_square piece).bind fun b1 =>
      (if piece.kind = PieceKind.pawn then
        (b1.handle_en_passant from_square to_square).map fun b2 =>
        (b2,
          (decide (to_square.row = 3) && decide (from_square.row = 1)) ||
          (decide (to_square.row = 4) && decide (from_square.row = 6)))
      else some (b1, false)).bind fun be =>
      let en_passant := be.2
      let piece_moved : Piece := { piece with moved := true }
      (be.1.set_piece to_square (some piece_moved)).bind fun b3 =>
      (b3.set_piece from_square none).map fun b4 =>
      { b4 with
        last_move := some (piece_moved, to_square, en_passant),
        current_player := b.current_player.opponent }
    else some b

/-- Material values from the `points` dict in `Board.get_best_move`; an
empty destination keeps `move_score = 0`. -/
def pieceValue : Option Piece → Nat
  | none => 0
  | some p =>
    match p.kind with
    | PieceKind.pawn => 10
    | PieceKind.knight => 30
    | PieceKind.bishop => 30
    | PieceKind.rook => 50
    | PieceKind.queen => 90
    | PieceKind.king => 900

/-- Per-move body of the loop of `Board.get_best_move`: score the
destination and keep it when strictly better. -/
def bestStep (b : Board) (acc : Square × Nat) (move : Square) :
    Option (Square × Nat) :=
  (b.get_piece move).map fun target =>
  let move_score := pieceValue target
  if acc.2 < move_score then (move, move_score) else acc

/-- `Board.get_best_move` from `board.py`: starting from
`best_move = piece_moves[1][0]` (raises on an empty move list) and
`highest_score = 0`, scan all moves and keep the first strictly improving
destination. -/
def Board.get_best_move (b : Board) (piece_moves : Piece × List Square) :
    Option (Square × Nat) :=
  (piece_moves.2.head?).bind fun best0 =>
  piece_moves.2.foldlM (bestStep b) (best0, 0)

/-- Per-square body of the `all_moves` loop of
`Board.get_bot_move_squares`: for each occupied square, Python's
non-short-circuiting `&` evaluates `piece.get_available_moves(self)` even
for WHITE pieces, and the appended move list comes from a second call (the
calls are pure, so both are bound here). -/
def botStep (b : Board) (acc : List (Piece × List Square)) (rc : Nat × Nat) :
    Option (List (Piece × List Square)) :=
  (b.get_piece ⟨(rc.1 : Int), (rc.2 : Int)⟩).bind fun op =>
  match op with
  | none => some acc
  | some piece =>
    (Piece.get_available_moves b piece).bind fun mvs =>
    if decide (piece.player = Player.BLACK) && decide (mvs ≠ []) then
      (Piece.get_available_moves b piece).map fun mvs2 =>
      acc ++ [(piece, mvs2)]
    else some acc

/-- The `all_moves` accumulation loop: a row-major scan. -/
def botAllMoves (b : Board) : Option (List (Piece × List Square)) :=
  boardCoords.foldlM (botStep b) []

/-- Per-piece body of the `highest_moves` loop. -/
def highStep (b : Board) (acc : List (Piece × Square × Nat))
    (pm : Piece × List Square) : Option (List (Piece × Square × Nat)) :=
  (b.get_best_move pm).map fun bm => acc ++ [(pm.1, bm)]

/-- Per-entry body of the final strict-improvement scan. -/
def scanStep (b : Board) (acc : Nat × Square × Square)
    (pm : Piece × Square × Nat) : Option (Nat × Square × Square) :=
  if acc.1 < pm.2.2 then
    (b.find_piece pm.1.id).map fun fs => (pm.2.2, pm.2.1, fs)
  else some acc

/-- `Board.get_bot_move_squares` from `board.py`.  `k` is the oracle for
`random.choice(highest_moves)`, which selects `highest_moves[k % len]` and
raises iff the list is empty. -/
def Board.get_bot_move_squares (b : Board) (k : Nat) : Option (Square × Square) :=
  (botAllMoves b).bind fun all_moves =>
  (all_moves.foldlM (highStep b)
    ([] : List (Piece × Square × Nat))).bind fun highest_moves =>
  (highest_moves.get? (k % highest_moves.length)).bind fun random_piece_move =>
  let best_score := random_piece_move.2.2
  let best_move := random_piece_move.2.1
  (b.find_piece random_piece_move.1.id).bind fun from_square =>
  (highest_moves.foldlM (scanStep b)
    (best_score, best_move, from_square)).map fun final =>
  (final.2.2, final.2.1)

/-- The grid really is 8 rows of 8 columns (true of every board built by
`Board.empty` / `Board.at_starting_position`; `BOARD_SIZE = 8`). -/
def WellSized (b : Board) : Prop :=
  b.board.length = 8 ∧ ∀ row ∈ b.board, row.length = 8

/-- The object identity stored at row-major coordinates `(r, c)`, if any. -/
def idAt (b : Board) (r c : Nat) : Option Nat :=
  match b.get_piece ⟨(r : Int), (c : Int)⟩ with
  | some (some p) => some p.id
  | _ => none

/-- Distinct on-board squares hold objects with distinct identities
(cf. the spec's invariant that a piece occupies at most one square).
Stated over the finite coordinate list so that it is decidable. -/
def WellFormed (b : Board) : Prop :=
  ∀ rc1 ∈ boardCoords, ∀ rc2 ∈ boardCoords,
    idAt b rc1.1 rc1.2 = idAt b rc2.1 rc2.2 →
    idAt b rc1.1 rc1.2 ≠ none → rc1 = rc2

instance (b : Board) : Decidable (WellSized b) :=
  decidable_of_iff (b.board.length = 8 ∧ ∀ row ∈ b.board, row.length = 8) Iff.rfl

instance (b : Board) : Decidable (WellFormed b) := by
  unfold WellFormed
  infer_instance


/-! ### Basic lemmas about the grid primitives -/

theorem bindSome {α β : Type} {x : Option α} {f : α → Option β} {y : β}
    (h : x.bind f = some y) : ∃ a, x = some a ∧ f a = some y :=
  Option.bind_eq_some.mp h

theorem mapSome {α β : Type} {x : Option α} {f : α → β} {y : β}
    (h : x.map f = some y) : ∃ a, x = some a ∧ f a = y := by
  obtain ⟨a, ha, hfa⟩ := Option.map_eq_some'.mp h
  exact ⟨a, ha, hfa⟩

theorem pyIdx_char {len : Nat} {i : Int} {n : Nat} (h : pyIdx len i = some n) :
    n < len ∧ ((0 ≤ i ∧ (n : Int) = i) ∨ (i < 0 ∧ (n : Int) = i + len)) := by
  unfold pyIdx at h
  by_cases h0 : i < 0
  · rw [if_pos h0] at h
    by_cases h1 : 0 ≤ i + (len : Int)
    · rw [if_pos h1] at h
      cases h
      constructor
      · omega
      · exact Or.inr ⟨h0, by omega⟩
    · rw [if_neg h1] at h; cases h
  · rw [if_neg h0] at h
    by_cases h1 : i < (len : Int)
    · rw [if_pos h1] at h
      cases h
      constructor
      · omega
      · exact Or.inl ⟨by omega, by omega⟩
    · rw [if_neg h1] at h; cases h

theorem pyIdx_lt {len : Nat} {i : Int} {n : Nat} (h : pyIdx len i = some n) :
    n < len := (pyIdx_char h).1

theorem pyIdx_nonneg_eq {len : Nat} {i : Int} {n : Nat} (h0 : 0 ≤ i)
    (h : pyIdx len i = some n) : (n : Int) = i := by
  rcases (pyIdx_char h).2 with ⟨_, hv⟩ | ⟨hneg, _⟩
  · exact hv
  · omega

theorem pyIdx_of_nonneg_lt {len : Nat} {i : Int} (h0 : 0 ≤ i) (h1 : i < len) :
    pyIdx len i = some i.toNat := by
  unfold pyIdx
  rw [if_neg (by omega), if_pos h1]

theorem pyGet_of_idx {α : Type} {xs : List α} {i : Int} {n : Nat}
    (hidx : pyIdx xs.length i = some n) : pyGet xs i = xs.get? n := by
  unfold pyGet
  rw [hidx]
  rfl

theorem pySet_of_idx {α : Type} {xs : List α} {i : Int} {n : Nat} (a : α)
    (hidx : pyIdx xs.length i = some n) : pySet xs i a = some (xs.set n a) := by
  unfold pySet
  rw [hidx]
  rfl

theorem pyGet_some {α : Type} {xs : List α} {i : Int} {a : α}
    (h : pyGet xs i = some a) :
    ∃ n, pyIdx xs.length i = some n ∧ xs.get? n = some a := by
  unfold pyGet at h
  obtain ⟨n, hn, hget⟩ := bindSome h
  exact ⟨n, hn, hget⟩

theorem pySet_some {α : Type} {xs : List α} {i : Int} {a : α} {ys : List α}
    (h : pySet xs i a = some ys) :
    ∃ n, pyIdx xs.length i = some n ∧ ys = xs.set n a := by
  unfold pySet at h
  obtain ⟨n, hn, hset⟩ := mapSome h
  exact ⟨n, hn, hset.symm⟩

theorem square_onboard_iff {s : Square} :
    s.is_on_board = true ↔ (0 ≤ s.row ∧ s.row ≤ 7 ∧ 0 ≤ s.col ∧ s.col ≤ 7) := by
  unfold Square.is_on_board
  simp only [Bool.and_eq_true, decide_eq_true_eq]
  tauto

/-- `set_piece` touches only the grid. -/
theorem set_piece_fields {b b' : Board} {sq : Square} {v : Option Piece}
    (h : b.set_piece sq v = some b') :
    b'.current_player = b.current_player ∧ b'.last_move = b.last_move := by
  unfold Board.set_piece at h
  obtain ⟨rowl, hrow, h⟩ := bindSome h
  obtain ⟨row2, hset, h⟩ := bindSome h
  obtain ⟨g, hset2, hb'⟩ := mapSome h
  rw [← hb']
  exact ⟨rfl, rfl⟩

/-- Successful `set_piece` decomposition. -/
theorem set_piece_some {b b' : Board} {sq : Square} {v : Option Piece}
    (h : b.set_piece sq v = some b') :
    ∃ r c rowl, pyIdx b.board.length sq.row = some r ∧
      b.board.get? r = some rowl ∧
      pyIdx rowl.length sq.col = some c ∧
      b' = { b with board := b.board.set r (rowl.set c v) } := by
  unfold Board.set_piece at h
  obtain ⟨rowl, hrow, h⟩ := bindSome h
  obtain ⟨row2, hset, h⟩ := bindSome h
  obtain ⟨g, hset2, hb'⟩ := mapSome h
  obtain ⟨r, hr, hget⟩ := pyGet_some hrow
  obtain ⟨c, hc, hrow2⟩ := pySet_some hset
  obtain ⟨r', hr', hg⟩ := pySet_some hset2
  rw [hr'] at hr
  cases hr
  refine ⟨r, c, rowl, hr', hget, hc, ?_⟩
  rw [← hb', hg, hrow2]

/-- Reading back the square just written. -/
theorem get_piece_set_piece_same {b b' : Board} {sq : Square} {v : Option Piece}
    (h : b.set_piece sq v = some b') : b'.get_piece sq = some v := by
  obtain ⟨r, c, rowl, hr, hget, hc, hb'⟩ := set_piece_some h
  have hrlt : r < b.board.length := pyIdx_lt hr
  have hclt : c < rowl.length := pyIdx_lt hc
  subst hb'
  unfold Board.get_piece
  have hidx : pyIdx (b.board.set r (rowl.set c v)).length sq.row = some r := by
    rw [List.length_set]; exact hr
  rw [pyGet_of_idx hidx, List.get?_set_eq_of_lt _ hrlt]
  show pyGet (rowl.set c v) sq.col = some v
  have hidx2 : pyIdx (rowl.set c v).length sq.col = some c := by
    rw [List.length_set]; exact hc
  rw [pyGet_of_idx hidx2, List.get?_set_eq_of_lt _ hclt]

/-- Writing one on-board square does not change the reading of a different
on-board square (on-board squares never alias). -/
theorem get_piece_set_piece_ne {b b' : Board} {sq sq' : Square} {v : Option Piece}
    (h : b.set_piece sq v = some b') (hon : sq.is_on_board) (hon' : sq'.is_on_board)
    (hne : sq ≠ sq') : b'.get_piece sq' = b.get_piece sq' := by
  obtain ⟨r, c, rowl, hr, hget, hc, hb'⟩ := set_piece_some h
  obtain ⟨hb1, _, hb2, _⟩ := square_onboard_iff.mp hon
  obtain ⟨hb1', _, hb2', _⟩ := square_onboard_iff.mp hon'
  subst hb'
  unfold Board.get_piece
  have hrv : (r : Int) = sq.row := pyIdx_nonneg_eq hb1 hr
  have hcv : (c : Int) = sq.col := pyIdx_nonneg_eq hb2 hc
  by_cases hrow : sq'.row = sq.row
  · -- same row, so the columns differ
    have hcol : sq'.col ≠ sq.col := by
      intro hcol
      exact hne (by cases sq; cases sq'; simp_all)
    have hidx : pyIdx (b.board.set r (rowl.set c v)).length sq'.row = some r := by
      rw [List.length_set, hrow]; exact hr
    rw [pyGet_of_idx hidx, List.get?_set_eq_of_lt _ (pyIdx_lt hr)]
    rw [pyGet_of_idx (hrow ▸ hr : pyIdx b.board.length sq'.row = some r), hget]
    show pyGet (rowl.set c v) sq'.col = pyGet rowl sq'.col
    cases hidx2 : pyIdx rowl.length sq'.col with
    | none =>
      have h1 : pyIdx (rowl.set c v).length sq'.col = none := by
        rw [List.length_set]; exact hidx2
      unfold pyGet
      rw [h1, hidx2]
      rfl
    | some c' =>
      have h1 : pyIdx (rowl.set c v).length sq'.col = some c' := by
        rw [List.length_set]; exact hidx2
      have hc'v : (c' : Int) = sq'.col := pyIdx_nonneg_eq hb2' hidx2
      have hcc : c' ≠ c := by
        intro hcc
        apply hcol
        rw [← hc'v, ← hcv, hcc]
      rw [pyGet_of_idx h1, pyGet_of_idx hidx2, List.get?_set_ne _ _ (by omega)]
  · -- different rows
    cases hidxr : pyIdx b.board.length sq'.row with
    | none =>
      have h1 : pyIdx (b.board.set r (rowl.set c v)).length sq'.row = none := by
        rw [List.length_set]; exact hidxr
      unfold pyGet
      rw [h1, hidxr]
      rfl
    | some r' =>
      have h1 : pyIdx (b.board.set r (rowl.set c v)).length sq'.row = some r' := by
        rw [List.length_set]; exact hidxr
      have hr'v : (r' : Int) = sq'.row := pyIdx_nonneg_eq hb1' hidxr
      have hrr : r' ≠ r := by
        intro hrr
        apply hrow
        rw [← hr'v, ← hrv, hrr]
      rw [pyGet_of_idx h1, pyGet_of_idx hidxr, List.get?_set_ne _ _ (by omega)]

/-- A square that can be read can be written. -/
theorem set_piece_isSome_of_get {b : Board} {sq : Square} {op : Option Piece}
    (h : b.get_piece sq = some op) (v : Option Piece) :
    ∃ b', b.set_piece sq v = some b' := by
  unfold Board.get_piece at h
  obtain ⟨rowl, hrow, h2⟩ := bindSome h
  obtain ⟨r, hr, hget⟩ := pyGet_some hrow
  obtain ⟨c, hc, hget2⟩ := pyGet_some h2
  refine ⟨{ b with board := b.board.set r (rowl.set c v) }, ?_⟩
  unfold Board.set_piece
  rw [hrow]
  show (pySet rowl sq.col v).bind _ = _
  rw [pySet_of_idx v hc]
  show (pySet b.board sq.row (rowl.set c v)).map _ = _
  rw [pySet_of_idx _ hr]
  rfl


/-! ### Concrete boards used by witnesses and counterexamples -/

/-- An 8×8 grid of empty squares (as built by `Board._create_empty_board`). -/
def emptyGrid : List (List (Option Piece)) :=
  List.replicate 8 (List.replicate 8 (none : Option Piece))

/-- Put a piece on a grid at row-major coordinates (witness scaffolding). -/
def gridPut (g : List (List (Option Piece))) (r c : Nat) (p : Piece) :
    List (List (Option Piece)) :=
  g.set r (((g.get? r).getD []).set c (some p))

/-! ### C10: `get_piece` / `set_piece` validation behaviour -/

theorem pyIdx_wrap {i : Int} (h0 : -8 ≤ i) (h1 : i ≤ 7) :
    pyIdx 8 i = some ((i + 8) % 8).toNat := by
  unfold pyIdx
  by_cases hn : i < 0
  · rw [if_pos hn, if_pos (by omega)]
    congr 1
    omega
  · rw [if_neg hn, if_pos (by omega)]
    congr 1
    omega

theorem pyIdx_out {i : Int} (h : i < -8 ∨ 7 < i) : pyIdx 8 i = none := by
  unfold pyIdx
  by_cases hn : i < 0
  · rw [if_pos hn, if_neg (by omega)]
  · rw [if_neg hn, if_neg (by omega)]

/-- C10: `get_piece` and `set_piece` perform no on-board validation: on an
8×8 grid, any square with both coordinates in `[-8, 7]` reads (and can
write) the grid entry at `((row + 8) % 8, (col + 8) % 8)` — negative
coordinates silently alias the opposite edge — and only a coordinate
outside `[-8, 7]` makes the call raise. -/
theorem C10_no_board_validation (b : Board) (sq : Square) (h8 : WellSized b) :
    ((-8 ≤ sq.row ∧ sq.row ≤ 7 ∧ -8 ≤ sq.col ∧ sq.col ≤ 7) →
      b.get_piece sq = (b.board.get? ((sq.row + 8) % 8).toNat).bind
        fun rowl => rowl.get? ((sq.col + 8) % 8).toNat) ∧
    ((sq.row < -8 ∨ 7 < sq.row ∨ sq.col < -8 ∨ 7 < sq.col) →
      b.get_piece sq = none) ∧
    (∀ v : Option Piece, (b.set_piece sq v).isSome ↔
      (-8 ≤ sq.row ∧ sq.row ≤ 7 ∧ -8 ≤ sq.col ∧ sq.col ≤ 7)) := by
  obtain ⟨hlen, hrows⟩ := h8
  refine ⟨?_, ?_, ?_⟩
  · rintro ⟨hr0, hr1, hc0, hc1⟩
    unfold Board.get_piece pyGet
    rw [hlen, pyIdx_wrap hr0 hr1]
    show (b.board.get? ((sq.row + 8) % 8).toNat).bind _ = _
    cases hrowl : b.board.get? ((sq.row + 8) % 8).toNat with
    | none => rfl
    | some rowl =>
      show (pyIdx rowl.length sq.col).bind _ = _
      rw [hrows rowl (List.get?_mem hrowl), pyIdx_wrap hc0 hc1]
      rfl
  · intro hout
    unfold Board.get_piece pyGet
    by_cases hrow : sq.row < -8 ∨ 7 < sq.row
    · rw [hlen, pyIdx_out hrow]
      rfl
    · have hcol : sq.col < -8 ∨ 7 < sq.col := by tauto
      rw [hlen, pyIdx_wrap (by omega) (by omega)]
      show (b.board.get? ((sq.row + 8) % 8).toNat).bind _ = _
      cases hrowl : b.board.get? ((sq.row + 8) % 8).toNat with
      | none => rfl
      | some rowl =>
        show (pyIdx rowl.length sq.col).bind _ = _
        rw [hrows rowl (List.get?_mem hrowl), pyIdx_out hcol]
        rfl
  · intro v
    constructor
    · intro hsome
      obtain ⟨b', hb'⟩ := Option.isSome_iff_exists.mp hsome
      obtain ⟨r, c, rowl, hr, hget, hc, _⟩ := set_piece_some hb'
      rw [hlen] at hr
      rw [hrows rowl (List.get?_mem hget)] at hc
      obtain ⟨hrlt, hrd⟩ := pyIdx_char hr
      obtain ⟨hclt, hcd⟩ := pyIdx_char hc
      omega
    · rintro ⟨hr0, hr1, hc0, hc1⟩
      have hr : pyIdx b.board.length sq.row = some ((sq.row + 8) % 8).toNat := by
        rw [hlen]; exact pyIdx_wrap hr0 hr1
      obtain ⟨rowl, hrowl⟩ : ∃ rowl,
          b.board.get? ((sq.row + 8) % 8).toNat = some rowl := by
        cases hg : b.board.get? ((sq.row + 8) % 8).toNat with
        | none =>
          have := List.get?_eq_none.mp hg
          have := pyIdx_lt hr
          omega
        | some rowl => exact ⟨rowl, rfl⟩
      have hc : pyIdx rowl.length sq.col = some ((sq.col + 8) % 8).toNat := by
        rw [hrows rowl (List.get?_mem hrowl)]
        exact pyIdx_wrap hc0 hc1
      obtain ⟨op, hop⟩ : ∃ op, rowl.get? ((sq.col + 8) % 8).toNat = some op := by
        cases hg : rowl.get? ((sq.col + 8) % 8).toNat with
        | none =>
          have h1 := List.get?_eq_none.mp hg
          have h2 := pyIdx_lt hc
          omega
        | some op => exact ⟨op, rfl⟩
      have hget : b.get_piece sq = some op := by
        unfold Board.get_piece
        rw [pyGet_of_idx hr, hrowl]
        show pyGet rowl sq.col = some op
        rw [pyGet_of_idx hc, hop]
      obtain ⟨b', hb'⟩ := set_piece_isSome_of_get hget v
      rw [hb']
      rfl

/-- A concrete board for the C10 witness: a white rook placed at (4, 4). -/
def rookPieceW : Piece := ⟨PieceKind.rook, Player.WHITE, false, 7⟩

def boardC10 : Board := ⟨gridPut emptyGrid 4 4 rookPieceW, Player.WHITE, none⟩

/-- Witness for C10: on a concrete 8×8 board, reading square (-4, -4)
returns the rook stored at grid entry (4, 4), reading (9, 0) raises, and a
write at (-4, -4) succeeds. -/
theorem C10_no_board_validation_witness :
    boardC10.get_piece ⟨-4, -4⟩ =
      (boardC10.board.get? (((-4 : Int) + 8) % 8).toNat).bind
        (fun rowl => rowl.get? (((-4 : Int) + 8) % 8).toNat) ∧
    boardC10.get_piece ⟨9, 0⟩ = none ∧
    (boardC10.set_piece ⟨-4, -4⟩ none).isSome := by
  refine ⟨(C10_no_board_validation boardC10 ⟨-4, -4⟩ (by decide)).1 (by decide),
    (C10_no_board_validation boardC10 ⟨9, 0⟩ (by decide)).2.1 (by decide),
    ((C10_no_board_validation boardC10 ⟨-4, -4⟩ (by decide)).2.2 none).mpr (by decide)⟩


/-! ### Lemmas about `find_piece` and on-board reads -/

theorem mem_boardCoords {rc : Nat × Nat} :
    rc ∈ boardCoords ↔ rc.1 < 8 ∧ rc.2 < 8 := by
  unfold boardCoords
  simp only [List.mem_flatMap, List.mem_map, List.mem_range]
  constructor
  · rintro ⟨r, hr, c, hc, rfl⟩
    exact ⟨hr, hc⟩
  · rintro ⟨h1, h2⟩
    exact ⟨rc.1, h1, rc.2, h2, rfl⟩

theorem findPieceAux_spec {b : Board} {pid : Nat} :
    ∀ {l : List (Nat × Nat)} {sq : Square}, findPieceAux b pid l = some sq →
      ∃ rc ∈ l, sq = ⟨(rc.1 : Int), (rc.2 : Int)⟩ ∧
        ∃ q, b.get_piece sq = some (some q) ∧ q.id = pid := by
  intro l
  induction l with
  | nil => intro sq h; cases h
  | cons rc rest ih =>
    intro sq h
    unfold findPieceAux at h
    cases hg : b.get_piece ⟨(rc.1 : Int), (rc.2 : Int)⟩ with
    | none => rw [hg] at h; cases h
    | some op =>
      rw [hg] at h
      cases op with
      | none =>
        dsimp only at h
        obtain ⟨rc', hmem, hsq, hq⟩ := ih h
        exact ⟨rc', List.mem_cons_of_mem _ hmem, hsq, hq⟩
      | some p =>
        dsimp only at h
        by_cases hid : p.id = pid
        · rw [if_pos hid] at h
          cases h
          exact ⟨rc, List.mem_cons_self _ _, rfl, p, hg, hid⟩
        · rw [if_neg hid] at h
          obtain ⟨rc', hmem, hsq, hq⟩ := ih h
          exact ⟨rc', List.mem_cons_of_mem _ hmem, hsq, hq⟩

/-- A found square is on the board and holds a piece with the sought id. -/
theorem find_piece_spec {b : Board} {pid : Nat} {sq : Square}
    (h : b.find_piece pid = some sq) :
    sq.is_on_board = true ∧ ∃ q, b.get_piece sq = some (some q) ∧ q.id = pid := by
  obtain ⟨rc, hmem, hsq, hq⟩ := findPieceAux_spec h
  obtain ⟨h1, h2⟩ := mem_boardCoords.mp hmem
  subst hsq
  refine ⟨?_, hq⟩
  rw [square_onboard_iff]
  dsimp only
  omega

/-- On a well-sized grid every on-board read succeeds. -/
theorem get_piece_onboard_isSome {b : Board} {sq : Square} (h8 : WellSized b)
    (hon : sq.is_on_board = true) : ∃ op, b.get_piece sq = some op := by
  obtain ⟨hr0, hr1, hc0, hc1⟩ := square_onboard_iff.mp hon
  obtain ⟨hlen, hrows⟩ := h8
  have hidx : pyIdx b.board.length sq.row = some sq.row.toNat := by
    rw [hlen]; exact pyIdx_of_nonneg_lt hr0 (by omega)
  obtain ⟨rowl, hrowl⟩ : ∃ rowl, b.board.get? sq.row.toNat = some rowl := by
    cases hg : b.board.get? sq.row.toNat with
    | none =>
      have := List.get?_eq_none.mp hg
      omega
    | some rowl => exact ⟨rowl, rfl⟩
  have hidx2 : pyIdx rowl.length sq.col = some sq.col.toNat := by
    rw [hrows rowl (List.get?_mem hrowl)]
    exact pyIdx_of_nonneg_lt hc0 (by omega)
  obtain ⟨op, hop⟩ : ∃ op, rowl.get? sq.col.toNat = some op := by
    cases hg : rowl.get? sq.col.toNat with
    | none =>
      have h1 := List.get?_eq_none.mp hg
      have := hrows rowl (List.get?_mem hrowl)
      omega
    | some op => exact ⟨op, rfl⟩
  refine ⟨op, ?_⟩
  unfold Board.get_piece
  rw [pyGet_of_idx hidx, hrowl]
  show pyGet rowl sq.col = some op
  rw [pyGet_of_idx hidx2, hop]

/-- `Pawn.check_diagonal` never raises when the grid is well-sized and the
pawn's own square is occupied. -/
theorem check_diagonal_isSome {b : Board} {start : Square} (cand : Square)
    {q : Piece}
    (h8 : WellSized b) (hstart : b.get_piece start = some (some q)) :
    ∃ l, Pawn.check_diagonal b start cand = some l := by
  unfold Pawn.check_diagonal
  by_cases hon : cand.is_on_board
  · rw [if_pos hon]
    obtain ⟨op, hop⟩ := get_piece_onboard_isSome h8 hon
    unfold Board.is_square_empty
    rw [hop]
    cases op with
    | none => exact ⟨[], rfl⟩
    | some q' =>
      unfold Board.capture_possible
      rw [hstart, hop]
      exact ⟨_, rfl⟩
  · rw [if_neg hon]
    exact ⟨[], rfl⟩

/-! ### C3: an illegal `move_piece` call is a silent no-op -/

/-- C3: if `from` is empty or holds a piece that does not belong to
`current_player`, `move_piece` returns the board completely unchanged
(grid, `current_player`, `last_move`, and every piece's `moved` flag). -/
theorem C3_illegal_move_noop (b : Board) (from_square to_square : Square) (qid : Nat)
    (h : b.get_piece from_square = some none ∨
      ∃ p, b.get_piece from_square = some (some p) ∧ p.player ≠ b.current_player) :
    b.move_piece from_square to_square qid = some b := by
  unfold Board.move_piece
  rcases h with h | ⟨p, hp, hne⟩
  · rw [h]
    rfl
  · rw [hp]
    show (if p.player = b.current_player then _ else some b) = some b
    rw [if_neg hne]

def blackRookPiece : Piece := ⟨PieceKind.rook, Player.BLACK, false, 11⟩

def boardWrongTurn : Board :=
  ⟨gridPut emptyGrid 4 4 blackRookPiece, Player.WHITE, none⟩

/-- Witness for C3: moving from an empty square, and moving the opponent's
rook, both leave the concrete board untouched. -/
theorem C3_illegal_move_noop_witness :
    boardC10.move_piece ⟨0, 0⟩ ⟨1, 0⟩ 0 = some boardC10 ∧
    boardWrongTurn.move_piece ⟨4, 4⟩ ⟨4, 5⟩ 0 = some boardWrongTurn :=
  ⟨C3_illegal_move_noop boardC10 ⟨0, 0⟩ ⟨1, 0⟩ 0 (Or.inl (by decide)),
   C3_illegal_move_noop boardWrongTurn ⟨4, 4⟩ ⟨4, 5⟩ 0
     (Or.inr ⟨blackRookPiece, by decide, by decide⟩)⟩




/-! ### C1: the pawn double-step and the `moved` flag -/

def movedPawnW : Piece := ⟨PieceKind.pawn, Player.WHITE, true, 1⟩

def boardC1 : Board := ⟨gridPut emptyGrid 1 0 movedPawnW, Player.WHITE, none⟩

/-- Counterexample to C1 as stated: a white pawn with `moved = true`
standing unobstructed on its starting rank (row 1) still receives the
two-step destination (3, 0), because `Pawn.is_at_start_position` tests
only the row and `moved` is never consulted by move generation. -/
theorem C1_counterexample :
    movedPawnW.moved = true ∧
    boardC1.get_piece ⟨1, 0⟩ = some (some movedPawnW) ∧
    boardC1.get_piece ⟨2, 0⟩ = some none ∧
    boardC1.get_piece ⟨3, 0⟩ = some none ∧
    Pawn.get_available_moves boardC1 movedPawnW = some [⟨2, 0⟩, ⟨3, 0⟩] := by
  refine ⟨rfl, by decide, by decide, by decide, by decide⟩

/-- C1 as amended: a pawn standing unobstructed on its starting rank
(row 1 for WHITE, row 6 for BLACK) receives both the one-step and the
two-step forward destinations *regardless of the value of its `moved`
flag*: the flag is never consulted, so the two-step destination is offered
even when `moved = true`. -/
theorem C1_pawn_double_step (b : Board) (p : Piece) (r c : Int)
    (h8 : WellSized b)
    (hfind : b.find_piece p.id = some ⟨r, c⟩)
    (hrank : (p.player = Player.WHITE ∧ r = 1) ∨ (p.player = Player.BLACK ∧ r = 6))
    (h1 : b.get_piece ⟨r + (if p.player = Player.WHITE then 1 else -1), c⟩ = some none)
    (h2 : b.get_piece ⟨r + 2 * (if p.player = Player.WHITE then 1 else -1), c⟩
      = some none) :
    ∃ mvs, Pawn.get_available_moves b p = some mvs ∧
      (⟨r + (if p.player = Player.WHITE then 1 else -1), c⟩ : Square) ∈ mvs ∧
      (⟨r + 2 * (if p.player = Player.WHITE then 1 else -1), c⟩ : Square) ∈ mvs := by
  obtain ⟨hon, q, hq, hqid⟩ := find_piece_spec hfind
  obtain ⟨hr0, hr1, hc0, hc1⟩ := square_onboard_iff.mp hon
  dsimp only at hr0 hr1 hc0 hc1
  rcases hrank with ⟨hp, hrow⟩ | ⟨hp, hrow⟩
  · -- WHITE pawn on row 1
    subst hrow
    rw [hp] at h1 h2 ⊢
    norm_num at h1 h2 ⊢
    have hred : Pawn.get_available_moves b p = Pawn.moves_from b p ⟨1, c⟩ := by
      unfold Pawn.get_available_moves
      rw [hfind]
      rfl
    obtain ⟨dr, hdr⟩ := check_diagonal_isSome ⟨2, c + 1⟩ h8 hq
    obtain ⟨dl, hdl⟩ := check_diagonal_isSome ⟨2, c - 1⟩ h8 hq
    rw [hred]
    unfold Pawn.moves_from Pawn.forward_moves
    simp only [hp, reduceIte]
    norm_num
    have hon2 : Square.is_on_board ⟨2, c⟩ = true := by
      rw [square_onboard_iff]
      dsimp only
      omega
    have hon3 : Square.is_on_board ⟨3, c⟩ = true := by
      rw [square_onboard_iff]
      dsimp only
      omega
    have hsp : Pawn.is_at_start_position p ⟨1, c⟩ = true := by
      unfold Pawn.is_at_start_position
      rw [hp]
      dsimp only
      decide
    have he1 : b.is_square_empty ⟨2, c⟩ = some true := by
      unfold Board.is_square_empty
      rw [h1]
      rfl
    have he2 : b.is_square_empty ⟨3, c⟩ = some true := by
      unfold Board.is_square_empty
      rw [h2]
      rfl
    refine ⟨[⟨2, c⟩, ⟨3, c⟩] ++ (dr ++ dl), ?_, ?_, ?_⟩
    · simp [hon2, hon3, hsp, he1, he2, hdr, hdl]
    · simp
    · simp
  · -- BLACK pawn on row 6
    subst hrow
    have hne : (Player.BLACK = Player.WHITE) = False := by simp
    rw [hp] at h1 h2 ⊢
    simp only [hne, if_false] at h1 h2 ⊢
    norm_num at h1 h2 ⊢
    have hred : Pawn.get_available_moves b p = Pawn.moves_from b p ⟨6, c⟩ := by
      unfold Pawn.get_available_moves
      rw [hfind]
      rfl
    obtain ⟨dr, hdr⟩ := check_diagonal_isSome ⟨5, c + 1⟩ h8 hq
    obtain ⟨dl, hdl⟩ := check_diagonal_isSome ⟨5, c - 1⟩ h8 hq
    rw [hred]
    unfold Pawn.moves_from Pawn.forward_moves
    simp only [hp, hne, if_false]
    norm_num
    have hon2 : Square.is_on_board ⟨5, c⟩ = true := by
      rw [square_onboard_iff]
      dsimp only
      omega
    have hon3 : Square.is_on_board ⟨4, c⟩ = true := by
      rw [square_onboard_iff]
      dsimp only
      omega
    have hsp : Pawn.is_at_start_position p ⟨6, c⟩ = true := by
      unfold Pawn.is_at_start_position
      rw [hp]
      dsimp only
      decide
    have he1 : b.is_square_empty ⟨5, c⟩ = some true := by
      unfold Board.is_square_empty
      rw [h1]
      rfl
    have he2 : b.is_square_empty ⟨4, c⟩ = some true := by
      unfold Board.is_square_empty
      rw [h2]
      rfl
    refine ⟨[⟨5, c⟩, ⟨4, c⟩] ++ (dr ++ dl), ?_, ?_, ?_⟩
    · simp [hon2, hon3, hsp, he1, he2, hdr, hdl]
    · simp
    · simp

def freshPawnW : Piece := ⟨PieceKind.pawn, Player.WHITE, false, 1⟩

def boardC1f : Board := ⟨gridPut emptyGrid 1 0 freshPawnW, Player.WHITE, none⟩

/-- Witness for the amended C1, applied both to a `moved = true` pawn and
to a `moved = false` pawn on the same starting square. -/
theorem C1_pawn_double_step_witness :
    (⟨2, 0⟩ : Square) ∈ (Pawn.get_available_moves boardC1 movedPawnW).getD [] ∧
    (⟨3, 0⟩ : Square) ∈ (Pawn.get_available_moves boardC1 movedPawnW).getD [] ∧
    (⟨3, 0⟩ : Square) ∈ (Pawn.get_available_moves boardC1f freshPawnW).getD [] := by
  obtain ⟨mvs, hm, ha, hb⟩ := C1_pawn_double_step boardC1 movedPawnW 1 0 (by decide)
    (by decide) (Or.inl ⟨rfl, rfl⟩) (by decide) (by decide)
  obtain ⟨mvs2, hm2, ha2, hb2⟩ := C1_pawn_double_step boardC1f freshPawnW 1 0 (by decide)
    (by decide) (Or.inl ⟨rfl, rfl⟩) (by decide) (by decide)
  simp only [movedPawnW, freshPawnW] at ha hb hb2
  norm_num at ha hb hb2
  rw [hm, hm2]
  exact ⟨ha, hb, hb2⟩


/-! ### C2: castling destinations are never generated -/

theorem singleStepFrom_mem {b : Board} {start : Square} {dir : Int × Int}
    {l : List Square} (h : singleStepFrom b start dir = some l) :
    ∀ m ∈ l, m = ⟨start.row + dir.1 * 1, start.col + dir.2 * 1⟩ := by
  unfold singleStepFrom at h
  by_cases hon : (start.translate_by (dir.1 * 1, dir.2 * 1)).is_on_board
  · rw [if_pos hon] at h
    cases hg : b.get_piece (start.translate_by (dir.1 * 1, dir.2 * 1)) with
    | none => rw [hg] at h; cases h
    | some op =>
      rw [hg] at h
      cases op with
      | none =>
        cases h
        intro m hm
        simp only [List.mem_singleton] at hm
        subst hm
        rfl
      | some q =>
        dsimp only at h
        cases hg2 : b.get_piece start with
        | none => rw [hg2] at h; cases h
        | some op2 =>
          rw [hg2] at h
          cases op2 with
          | none => cases h
          | some p =>
            dsimp only at h
            by_cases hpq : p.player ≠ q.player
            · rw [if_pos hpq] at h
              cases h
              intro m hm
              simp only [List.mem_singleton] at hm
              subst hm
              rfl
            · rw [if_neg hpq] at h
              cases h
              intro m hm
              cases hm
  · rw [if_neg hon] at h
    cases h
    intro m hm
    cases hm

theorem king_gmid_of_find {b : Board} {pid : Nat} {sq : Square}
    (hfind : b.find_piece pid = some sq) (dir : Int × Int) :
    King.get_moves_in_direction b pid dir = singleStepFrom b sq dir := by
  unfold King.get_moves_in_direction
  rw [hfind]
  rfl

/-- C2 as amended: `King.get_available_moves` generates only the eight
single-step destinations; every generated destination lies within one row
and one column of the King's square, so the castling destination (two
columns away) is never produced — the castling generation in the source is
commented out (although `Board.handle_castling` would still relocate the
rook if a two-column King move were executed). -/
theorem C2_king_single_step_only (b : Board) (pid : Nat) (sq : Square)
    (mvs : List Square)
    (hfind : b.find_piece pid = some sq)
    (hmoves : King.get_available_moves b pid = some mvs) :
    ∀ m ∈ mvs, (m.row - sq.row).natAbs ≤ 1 ∧ (m.col - sq.col).natAbs ≤ 1 := by
  unfold King.get_available_moves at hmoves
  obtain ⟨m1, hm1, hmoves⟩ := bindSome hmoves
  obtain ⟨m2, hm2, hmoves⟩ := bindSome hmoves
  obtain ⟨m3, hm3, hmoves⟩ := bindSome hmoves
  obtain ⟨m4, hm4, hmoves⟩ := mapSome hmoves
  subst hmoves
  unfold King.get_fs_moves at hm1
  obtain ⟨u1, hu1, hm1⟩ := bindSome hm1
  obtain ⟨d1, hd1, hm1⟩ := mapSome hm1
  unfold King.get_bs_moves at hm2
  obtain ⟨u2, hu2, hm2⟩ := bindSome hm2
  obtain ⟨d2, hd2, hm2⟩ := mapSome hm2
  unfold King.get_vertical_moves at hm3
  obtain ⟨u3, hu3, hm3⟩ := bindSome hm3
  obtain ⟨d3, hd3, hm3⟩ := mapSome hm3
  unfold King.get_horizontal_moves at hm4
  obtain ⟨u4, hu4, hm4⟩ := bindSome hm4
  obtain ⟨d4, hd4, hm4⟩ := mapSome hm4
  subst hm1 hm2 hm3 hm4
  rw [king_gmid_of_find hfind] at hu1 hd1 hu2 hd2 hu3 hd3 hu4 hd4
  intro m hm
  simp only [List.mem_append] at hm
  have hcases : m ∈ u1 ∨ m ∈ d1 ∨ m ∈ u2 ∨ m ∈ d2 ∨ m ∈ u3 ∨ m ∈ d3 ∨
      m ∈ u4 ∨ m ∈ d4 := by tauto
  rcases hcases with hc | hc | hc | hc | hc | hc | hc | hc
  · have := singleStepFrom_mem hu1 m hc
    subst this
    dsimp only
    omega
  · have := singleStepFrom_mem hd1 m hc
    subst this
    dsimp only
    omega
  · have := singleStepFrom_mem hu2 m hc
    subst this
    dsimp only
    omega
  · have := singleStepFrom_mem hd2 m hc
    subst this
    dsimp only
    omega
  · have := singleStepFrom_mem hu3 m hc
    subst this
    dsimp only
    omega
  · have := singleStepFrom_mem hd3 m hc
    subst this
    dsimp only
    omega
  · have := singleStepFrom_mem hu4 m hc
    subst this
    dsimp only
    omega
  · have := singleStepFrom_mem hd4 m hc
    subst this
    dsimp only
    omega

def kingWC2 : Piece := ⟨PieceKind.king, Player.WHITE, false, 2⟩

def rookWC2 : Piece := ⟨PieceKind.rook, Player.WHITE, false, 3⟩

def boardC2 : Board :=
  ⟨gridPut (gridPut emptyGrid 0 4 kingWC2) 0 7 rookWC2, Player.WHITE, none⟩

/-- Counterexample to C2 as stated: white King on (0, 4) and white Rook on
(0, 7), neither moved, squares (0, 5) and (0, 6) empty — a castling-eligible
position — yet `King.get_available_moves` returns only the five single-step
destinations and not the castling destination (0, 6). -/
theorem C2_counterexample :
    kingWC2.moved = false ∧ rookWC2.moved = false ∧
    boardC2.get_piece ⟨0, 4⟩ = some (some kingWC2) ∧
    boardC2.get_piece ⟨0, 7⟩ = some (some rookWC2) ∧
    boardC2.get_piece ⟨0, 5⟩ = some none ∧
    boardC2.get_piece ⟨0, 6⟩ = some none ∧
    King.get_available_moves boardC2 2 =
      some [⟨1, 5⟩, ⟨1, 3⟩, ⟨1, 4⟩, ⟨0, 5⟩, ⟨0, 3⟩] := by
  refine ⟨rfl, rfl, by decide, by decide, by decide, by decide, by decide⟩

/-- Witness for the amended C2, instantiated at the castling-eligible
concrete board: the generated destination (0, 5) is a single step. -/
theorem C2_king_single_step_only_witness :
    (((⟨0, 5⟩ : Square)).row - ((⟨0, 4⟩ : Square)).row).natAbs ≤ 1 ∧
    (((⟨0, 5⟩ : Square)).col - ((⟨0, 4⟩ : Square)).col).natAbs ≤ 1 :=
  C2_king_single_step_only boardC2 2 ⟨0, 4⟩ [⟨1, 5⟩, ⟨1, 3⟩, ⟨1, 4⟩, ⟨0, 5⟩, ⟨0, 3⟩]
    (by decide) (by decide) ⟨0, 5⟩ (by decide)


/-! ### C5: characterisation of the sliding-ray walk -/

theorem gmidAux_succ (b : Board) (sq : Square) (dir : Int × Int) (fuel d : Nat) :
    gmidAux b sq dir (fuel + 1) d =
    (if (sq.translate_by (dir.1 * (d : Int), dir.2 * (d : Int))).is_on_board then
      match b.get_piece (sq.translate_by (dir.1 * (d : Int), dir.2 * (d : Int))) with
      | none => none
      | some none =>
        (gmidAux b sq dir fuel (d + 1)).map
          fun rest => (sq.translate_by (dir.1 * (d : Int), dir.2 * (d : Int))) :: rest
      | some (some q) =>
        match b.get_piece sq with
        | some (some p) =>
          some (if p.player ≠ q.player
            then [sq.translate_by (dir.1 * (d : Int), dir.2 * (d : Int))] else [])
        | _ => none
    else some []) := rfl

/-- The loop of `get_moves_in_direction`, started at distance `d`, stops
within its remaining fuel iff some candidate at distance `j` is off-board
or occupied; when that holds, the returned list is exactly characterised:
a square is returned iff it is the candidate at some distance `k`, all
candidates up to `k` are on the board, all candidates strictly before `k`
are empty, and the candidate at `k` is itself empty or holds an opposing
piece. -/
theorem gmidAux_char {b : Board} {sq : Square} {p : Piece} {dir : Int × Int}
    (h8 : WellSized b) (hp : b.get_piece sq = some (some p)) :
    ∀ fuel d : Nat, 1 ≤ d →
    (∃ j : Nat, d ≤ j ∧ j < d + fuel ∧
      ¬((sq.translate_by (dir.1 * (j : Int), dir.2 * (j : Int))).is_on_board = true ∧
        b.get_piece (sq.translate_by (dir.1 * (j : Int), dir.2 * (j : Int)))
          = some none)) →
    ∃ L, gmidAux b sq dir fuel d = some L ∧
      ∀ m, m ∈ L ↔ ∃ k : Nat, d ≤ k ∧
        m = sq.translate_by (dir.1 * (k : Int), dir.2 * (k : Int)) ∧
        (∀ j : Nat, d ≤ j → j ≤ k →
          (sq.translate_by (dir.1 * (j : Int), dir.2 * (j : Int))).is_on_board
            = true) ∧
        (∀ j : Nat, d ≤ j → j < k →
          b.get_piece (sq.translate_by (dir.1 * (j : Int), dir.2 * (j : Int)))
            = some none) ∧
        (b.get_piece (sq.translate_by (dir.1 * (k : Int), dir.2 * (k : Int)))
            = some none ∨
          ∃ q, b.get_piece (sq.translate_by (dir.1 * (k : Int), dir.2 * (k : Int)))
            = some (some q) ∧ q.player ≠ p.player) := by
  intro fuel
  induction fuel with
  | zero =>
    intro d hd hstop
    obtain ⟨j, hj1, hj2, _⟩ := hstop
    omega
  | succ fuel ih =>
    intro d hd hstop
    rw [gmidAux_succ]
    by_cases hon : (sq.translate_by (dir.1 * (d : Int), dir.2 * (d : Int))).is_on_board
    · rw [if_pos hon]
      obtain ⟨op, hop⟩ := get_piece_onboard_isSome h8 hon
      rw [hop]
      cases op with
      | none =>
        obtain ⟨j, hj1, hj2, hjs⟩ := hstop
        have hjd : j ≠ d := by
          intro hjd
          subst hjd
          exact hjs ⟨hon, hop⟩
        obtain ⟨L', hL', hiff⟩ := ih (d + 1) (by omega) ⟨j, by omega, by omega, hjs⟩
        rw [hL']
        refine ⟨_, rfl, ?_⟩
        intro m
        simp only [List.mem_cons]
        constructor
        · rintro (rfl | hm)
          · refine ⟨d, le_refl d, rfl, ?_, ?_, Or.inl hop⟩
            · intro j h1 h2
              have : j = d := by omega
              subst this
              exact hon
            · intro j h1 h2
              omega
          · obtain ⟨k, hk, hm, honb, hemp, hlast⟩ := (hiff m).mp hm
            refine ⟨k, by omega, hm, ?_, ?_, hlast⟩
            · intro j h1 h2
              by_cases hjd2 : j = d
              · subst hjd2
                exact hon
              · exact honb j (by omega) h2
            · intro j h1 h2
              by_cases hjd2 : j = d
              · subst hjd2
                exact hop
              · exact hemp j (by omega) h2
        · rintro ⟨k, hk, hm, honb, hemp, hlast⟩
          by_cases hkd : k = d
          · subst hkd
            exact Or.inl hm
          · right
            exact (hiff m).mpr ⟨k, by omega, hm,
              fun j h1 h2 => honb j (by omega) h2,
              fun j h1 h2 => hemp j (by omega) h2, hlast⟩
      | some q =>
        rw [hp]
        dsimp only
        by_cases hpq : p.player ≠ q.player
        · rw [if_pos hpq]
          refine ⟨_, rfl, ?_⟩
          intro m
          simp only [List.mem_singleton]
          constructor
          · rintro rfl
            refine ⟨d, le_refl d, rfl, ?_, ?_, Or.inr ⟨q, hop, fun h => hpq h.symm⟩⟩
            · intro j h1 h2
              have : j = d := by omega
              subst this
              exact hon
            · intro j h1 h2
              omega
          · rintro ⟨k, hk, hm, honb, hemp, hlast⟩
            by_cases hkd : k = d
            · subst hkd
              exact hm
            · have := hemp d (le_refl d) (by omega)
              rw [hop] at this
              cases this
        · rw [if_neg hpq]
          refine ⟨[], rfl, ?_⟩
          intro m
          simp only [List.not_mem_nil, false_iff]
          rintro ⟨k, hk, hm, honb, hemp, hlast⟩
          by_cases hkd : k = d
          · subst hkd
            rcases hlast with hlast | ⟨q', hq', hne⟩
            · rw [hop] at hlast
              cases hlast
            · rw [hop] at hq'
              cases hq'
              exact hpq fun h => hne h.symm
          · have := hemp d (le_refl d) (by omega)
            rw [hop] at this
            cases this
    · rw [if_neg hon]
      refine ⟨[], rfl, ?_⟩
      intro m
      simp only [List.not_mem_nil, false_iff]
      rintro ⟨k, hk, hm, honb, hemp, hlast⟩
      exact hon (honb d (le_refl d) hk)

/-- The walk always meets, within 17 iterations, a candidate that is
off-board or occupied (the square of the piece itself when the direction
vector is zero, an off-board candidate otherwise). -/
theorem ray_stop_exists {b : Board} {sq : Square} {p : Piece} (dir : Int × Int)
    (hp : b.get_piece sq = some (some p)) :
    ∃ j : Nat, 1 ≤ j ∧ j < 1 + 17 ∧
      ¬((sq.translate_by (dir.1 * (j : Int), dir.2 * (j : Int))).is_on_board = true ∧
        b.get_piece (sq.translate_by (dir.1 * (j : Int), dir.2 * (j : Int)))
          = some none) := by
  by_cases hzero : dir.1 = 0 ∧ dir.2 = 0
  · refine ⟨1, le_refl 1, by omega, ?_⟩
    rintro ⟨honb, hemp⟩
    have hc : sq.translate_by (dir.1 * ((1 : Nat) : Int), dir.2 * ((1 : Nat) : Int))
        = sq := by
      obtain ⟨h1, h2⟩ := hzero
      cases sq
      simp [Square.translate_by, h1, h2]
    rw [hc, hp] at hemp
    cases hemp
  · by_contra hno
    push_neg at hno
    have h1 := (hno 1 (by omega) (by omega)).1
    have h9 := (hno 9 (by omega) (by omega)).1
    rw [square_onboard_iff] at h1 h9
    simp only [Square.translate_by] at h1 h9
    by_cases hd1 : dir.1 = 0
    · have hd2 : dir.2 ≠ 0 := fun h => hzero ⟨hd1, h⟩
      obtain ⟨_, _, hc1, hc2⟩ := h1
      obtain ⟨_, _, hc3, hc4⟩ := h9
      omega
    · obtain ⟨hr1, hr2, _, _⟩ := h1
      obtain ⟨hr3, hr4, _, _⟩ := h9
      omega

/-- C5: `get_moves_in_direction` returns exactly the squares reached by
stepping repeatedly from the piece's square: all returned squares are
on-board; a square is returned iff it is the candidate at some distance
`k ≥ 1` along the direction vector such that every candidate up to `k` is
on-board, every candidate strictly before `k` is empty, and the candidate
at `k` is itself empty or holds an opposing piece (so the ray includes
every square before the first occupied one, includes the first occupied
square iff it holds an opponent, and nothing beyond it). -/
theorem C5_ray_characterisation (b : Board) (pid : Nat) (sq : Square) (p : Piece)
    (dir : Int × Int)
    (h8 : WellSized b)
    (hfind : b.find_piece pid = some sq)
    (hp : b.get_piece sq = some (some p)) :
    ∃ mvs, Piece.get_moves_in_direction b pid dir = some mvs ∧
      (∀ m ∈ mvs, m.is_on_board = true) ∧
      ∀ m, m ∈ mvs ↔ ∃ k : Nat, 1 ≤ k ∧
        m = sq.translate_by (dir.1 * (k : Int), dir.2 * (k : Int)) ∧
        (∀ j : Nat, 1 ≤ j → j ≤ k →
          (sq.translate_by (dir.1 * (j : Int), dir.2 * (j : Int))).is_on_board
            = true) ∧
        (∀ j : Nat, 1 ≤ j → j < k →
          b.get_piece (sq.translate_by (dir.1 * (j : Int), dir.2 * (j : Int)))
            = some none) ∧
        (b.get_piece m = some none ∨
          ∃ q, b.get_piece m = some (some q) ∧ q.player ≠ p.player) := by
  have hred : Piece.get_moves_in_direction b pid dir = gmidAux b sq dir 17 1 := by
    unfold Piece.get_moves_in_direction
    rw [hfind]
    rfl
  obtain ⟨L, hL, hiff⟩ := gmidAux_char h8 hp 17 1 (le_refl 1) (ray_stop_exists dir hp)
  refine ⟨L, by rw [hred]; exact hL, ?_, ?_⟩
  · intro m hm
    obtain ⟨k, hk, hm', honb, _, _⟩ := (hiff m).mp hm
    rw [hm']
    exact honb k hk (le_refl k)
  · intro m
    rw [hiff m]
    constructor
    · rintro ⟨k, hk, hm, honb, hemp, hlast⟩
      exact ⟨k, hk, hm, honb, hemp, by rw [hm]; exact hlast⟩
    · rintro ⟨k, hk, hm, honb, hemp, hlast⟩
      exact ⟨k, hk, hm, honb, hemp, by rw [← hm]; exact hlast⟩


def blackPawnRay : Piece := ⟨PieceKind.pawn, Player.BLACK, false, 8⟩

def boardRay : Board :=
  ⟨gridPut (gridPut emptyGrid 4 4 rookPieceW) 5 4 blackPawnRay, Player.WHITE, none⟩

/-- Witness for C5: on a concrete board (white rook on (4, 4), black pawn
on (5, 4)) the upward ray of the rook contains the capturing destination
(5, 4), via the characterisation at distance 1. -/
theorem C5_ray_characterisation_witness :
    (⟨5, 4⟩ : Square) ∈ (Piece.get_moves_in_direction boardRay 7 (1, 0)).getD [] := by
  obtain ⟨mvs, heq, honb, hiff⟩ := C5_ray_characterisation boardRay 7 ⟨4, 4⟩
    rookPieceW (1, 0) (by decide) (by decide) (by decide)
  have h5 : (⟨5, 4⟩ : Square) ∈ mvs := by
    refine (hiff ⟨5, 4⟩).mpr ⟨1, le_refl 1, by decide, ?_, ?_,
      Or.inr ⟨blackPawnRay, by decide, by decide⟩⟩
    · intro j h1 h2
      have hj : j = 1 := by omega
      subst hj
      decide
    · intro j h1 h2
      omega
  rw [heq]
  exact h5


/-! ### Decomposition of a successful `move_piece` call -/

theorem someBind {α β : Type} (a : α) (f : α → Option β) : (some a).bind f = f a := rfl

theorem move_piece_success_decomp {b b' : Board} {fs ts : Square} {p0 : Piece}
    {qid : Nat}
    (hget : b.get_piece fs = some (some p0))
    (hpl : p0.player = b.current_player)
    (hres : b.move_piece fs ts qid = some b') :
    ∃ b1 bmid en b3 b4,
      b.handle_castling fs ts (movingPieceAfterPromotion b p0 ts qid) = some b1 ∧
      ((movingPieceAfterPromotion b p0 ts qid).kind = PieceKind.pawn →
        b1.handle_en_passant fs ts = some bmid ∧
        en = ((decide (ts.row = 3) && decide (fs.row = 1))
            || (decide (ts.row = 4) && decide (fs.row = 6)))) ∧
      ((movingPieceAfterPromotion b p0 ts qid).kind ≠ PieceKind.pawn →
        bmid = b1 ∧ en = false) ∧
      bmid.set_piece ts
        (some { movingPieceAfterPromotion b p0 ts qid with moved := true })
        = some b3 ∧
      b3.set_piece fs none = some b4 ∧
      b' = { b4 with
        last_move :=
          some ({ movingPieceAfterPromotion b p0 ts qid with moved := true }, ts, en),
        current_player := b.current_player.opponent } := by
  unfold Board.move_piece at hres
  rw [hget, someBind] at hres
  dsimp only at hres
  rw [if_pos hpl] at hres
  obtain ⟨b1, hcast, hres⟩ := bindSome hres
  by_cases hk : (movingPieceAfterPromotion b p0 ts qid).kind = PieceKind.pawn
  · rw [if_pos hk] at hres
    obtain ⟨be, hbe, hres⟩ := bindSome hres
    obtain ⟨b2, hep, hbe2⟩ := mapSome hbe
    subst hbe2
    dsimp only at hres
    obtain ⟨b3, hset1, hres⟩ := bindSome hres
    obtain ⟨b4, hset2, hb'⟩ := mapSome hres
    exact ⟨b1, b2, _, b3, b4, hcast, fun _ => ⟨hep, rfl⟩,
      fun h => absurd hk h, hset1, hset2, hb'.symm⟩
  · rw [if_neg hk, someBind] at hres
    dsimp only at hres
    obtain ⟨b3, hset1, hres⟩ := bindSome hres
    obtain ⟨b4, hset2, hb'⟩ := mapSome hres
    exact ⟨b1, b1, false, b3, b4, hcast, fun h => absurd h hk,
      fun _ => ⟨rfl, rfl⟩, hset1, hset2, hb'.symm⟩

/-- `handle_castling` touches only the grid. -/
theorem handle_castling_fields {b b1 : Board} {fs ts : Square} {piece : Piece}
    (h : b.handle_castling fs ts piece = some b1) :
    b1.current_player = b.current_player ∧ b1.last_move = b.last_move := by
  unfold Board.handle_castling at h
  by_cases h1 : piece.kind ≠ PieceKind.king
  · rw [if_pos h1] at h
    cases h
    exact ⟨rfl, rfl⟩
  · rw [if_neg h1] at h
    by_cases h2 : 1 < (fs.col - ts.col).natAbs
    · rw [if_pos h2] at h
      by_cases h3 : ts.col = 2
      · rw [if_pos h3] at h
        obtain ⟨rook, hr, h⟩ := bindSome h
        obtain ⟨bx, hbx, h⟩ := bindSome h
        obtain ⟨f1, f2⟩ := set_piece_fields hbx
        obtain ⟨g1, g2⟩ := set_piece_fields h
        exact ⟨g1.trans f1, g2.trans f2⟩
      · rw [if_neg h3] at h
        obtain ⟨rook, hr, h⟩ := bindSome h
        obtain ⟨bx, hbx, h⟩ := bindSome h
        obtain ⟨f1, f2⟩ := set_piece_fields hbx
        obtain ⟨g1, g2⟩ := set_piece_fields h
        exact ⟨g1.trans f1, g2.trans f2⟩
    · rw [if_neg h2] at h
      cases h
      exact ⟨rfl, rfl⟩

/-- `handle_en_passant` touches only the grid. -/
theorem handle_en_passant_fields {b b1 : Board} {fs ts : Square}
    (h : b.handle_en_passant fs ts = some b1) :
    b1.current_player = b.current_player ∧ b1.last_move = b.last_move := by
  unfold Board.handle_en_passant at h
  cases hlm : b.last_move with
  | none =>
    rw [hlm] at h
    cases h
    exact ⟨rfl, hlm⟩
  | some lm =>
    rw [hlm] at h
    dsimp only at h
    by_cases h1 : (lm.2.2 && decide (lm.2.1.row = fs.row)) = true
    · rw [if_pos h1] at h
      by_cases h2 : lm.2.1.col = ts.col
      · rw [if_pos h2] at h
        exact ⟨(set_piece_fields h).1, (set_piece_fields h).2.trans hlm⟩
      · rw [if_neg h2] at h
        cases h
        exact ⟨rfl, hlm⟩
    · rw [if_neg h1] at h
      cases h
      exact ⟨rfl, hlm⟩

/-! ### C7: a successful move flips the turn and replaces `last_move` -/

/-- C7: on a successful `move_piece` call (the `from` square holds a piece
of `current_player` and the call completes), `current_player` afterwards is
exactly the opponent of its previous value and `last_move` is overwritten
with a record `(moved piece, to-square, double-step flag)` of this move;
moreover none of the auxiliary mutators (`set_piece`, `handle_castling`,
`handle_en_passant`) ever changes `current_player` or `last_move`, so the
flip happens exactly once per successful call. -/
theorem C7_turn_alternation (b b' : Board) (fs ts : Square) (p0 : Piece) (qid : Nat)
    (hget : b.get_piece fs = some (some p0))
    (hpl : p0.player = b.current_player)
    (hres : b.move_piece fs ts qid = some b') :
    (b'.current_player = b.current_player.opponent ∧
      ∃ pm en, b'.last_move = some (pm, ts, en) ∧ pm.moved = true) ∧
    (∀ (b2 b3 : Board) (sq : Square) (v : Option Piece), b2.set_piece sq v = some b3 →
      b3.current_player = b2.current_player ∧ b3.last_move = b2.last_move) ∧
    (∀ (b2 b3 : Board) (f t : Square) (pc : Piece), b2.handle_castling f t pc = some b3 →
      b3.current_player = b2.current_player ∧ b3.last_move = b2.last_move) ∧
    (∀ (b2 b3 : Board) (f t : Square), b2.handle_en_passant f t = some b3 →
      b3.current_player = b2.current_player ∧ b3.last_move = b2.last_move) := by
  refine ⟨?_, fun _ _ _ _ h => set_piece_fields h,
    fun _ _ _ _ _ h => handle_castling_fields h,
    fun _ _ _ _ h => handle_en_passant_fields h⟩
  obtain ⟨b1, bmid, en, b3, b4, hcast, hpawn, hnonpawn, hset1, hset2, hb'⟩ :=
    move_piece_success_decomp hget hpl hres
  subst hb'
  exact ⟨rfl, { movingPieceAfterPromotion b p0 ts qid with moved := true }, en,
    rfl, rfl⟩

def whitePawnE4 : Piece := ⟨PieceKind.pawn, Player.WHITE, false, 21⟩

def boardC7 : Board := ⟨gridPut emptyGrid 1 4 whitePawnE4, Player.WHITE, none⟩

/-- Witness for C7: the opening double-step `(1,4) → (3,4)` flips the turn
to BLACK and records a double-step `last_move`. -/
theorem C7_turn_alternation_witness :
    ((boardC7.move_piece ⟨1, 4⟩ ⟨3, 4⟩ 0).getD boardC7).current_player
      = Player.WHITE.opponent ∧
    ((boardC7.move_piece ⟨1, 4⟩ ⟨3, 4⟩ 0).getD boardC7).last_move ≠ none := by
  have hres : boardC7.move_piece ⟨1, 4⟩ ⟨3, 4⟩ 0
      = some ((boardC7.move_piece ⟨1, 4⟩ ⟨3, 4⟩ 0).getD boardC7) := by decide
  obtain ⟨⟨hflip, pm, en, hlm, hmv⟩, _, _, _⟩ :=
    C7_turn_alternation boardC7 _ ⟨1, 4⟩ ⟨3, 4⟩ whitePawnE4 0 (by decide) (by decide)
      hres
  refine ⟨hflip, ?_⟩
  rw [hlm]
  simp


/-! ### C6: pawn promotion -/

theorem handle_castling_nonking {b b1 : Board} {fs ts : Square} {piece : Piece}
    (hk : piece.kind ≠ PieceKind.king)
    (h : b.handle_castling fs ts piece = some b1) : b1 = b := by
  unfold Board.handle_castling at h
  rw [if_pos hk] at h
  cases h
  rfl

theorem get_piece_congr {b1 b2 : Board} (h : b1.board = b2.board) (sq : Square) :
    b1.get_piece sq = b2.get_piece sq := by
  unfold Board.get_piece
  rw [h]

/-- C6 as amended: a successful `move_piece` call moving a Pawn onto row 0
or 7 **from a different square** places a newly constructed Queen of the
mover's player (with `moved = true` after the move) on the destination,
clears the origin, and changes no other square — so the original Pawn is
no longer anywhere on the board.  (When `from = to` the claim as stated
fails: the Queen is immediately overwritten, see the counterexample.) -/
theorem C6_promotion (b b' : Board) (fs ts : Square) (p0 : Piece) (qid : Nat)
    (hfs : fs.is_on_board = true) (hts : ts.is_on_board = true) (hne : fs ≠ ts)
    (hget : b.get_piece fs = some (some p0))
    (hkind : p0.kind = PieceKind.pawn)
    (hpl : p0.player = b.current_player)
    (hrow : ts.row = 0 ∨ ts.row = 7)
    (hres : b.move_piece fs ts qid = some b') :
    b'.get_piece ts
      = some (some ⟨PieceKind.queen, b.current_player, true, qid⟩) ∧
    b'.get_piece fs = some none ∧
    ∀ sq : Square, sq.is_on_board = true → sq ≠ fs → sq ≠ ts →
      b'.get_piece sq = b.get_piece sq := by
  obtain ⟨b1, bmid, en, b3, b4, hcast, hpawn, hnonpawn, hset1, hset2, hb'⟩ :=
    move_piece_success_decomp hget hpl hres
  have hcond : (decide (p0.kind = PieceKind.pawn)
      && (decide (ts.row = 0) || decide (ts.row = 7))) = true := by
    rcases hrow with h | h <;> simp [hkind, h]
  have hP : movingPieceAfterPromotion b p0 ts qid
      = ⟨PieceKind.queen, b.current_player, false, qid⟩ := by
    unfold movingPieceAfterPromotion
    rw [if_pos hcond]
  rw [hP] at hcast hnonpawn hset1 hb'
  have hb1 : b1 = b := handle_castling_nonking (by dsimp only; decide) hcast
  obtain ⟨hbmid, hen⟩ := hnonpawn (by dsimp only; decide)
  rw [hbmid.trans hb1] at hset1
  subst hen
  subst hb'
  have hts3 : b3.get_piece ts
      = some (some (⟨PieceKind.queen, b.current_player, true, qid⟩ : Piece)) :=
    get_piece_set_piece_same hset1
  have hts4 : b4.get_piece ts = b3.get_piece ts :=
    get_piece_set_piece_ne hset2 hfs hts hne
  refine ⟨?_, ?_, ?_⟩
  · show b4.get_piece ts = _
    rw [hts4, hts3]
  · show b4.get_piece fs = _
    exact get_piece_set_piece_same hset2
  · intro sq hon hnfs hnts
    show b4.get_piece sq = _
    rw [get_piece_set_piece_ne hset2 hfs hon (fun h => hnfs h.symm),
      get_piece_set_piece_ne hset1 hts hon (fun h => hnts h.symm)]

def pawnAt70 : Piece := ⟨PieceKind.pawn, Player.WHITE, false, 31⟩

def boardC6 : Board := ⟨gridPut emptyGrid 7 0 pawnAt70, Player.WHITE, none⟩

/-- Counterexample to C6 as stated: `move_piece((7,0), (7,0))` on a white
pawn standing on row 7 is a successful pawn move whose destination row is
7, yet after the call the destination square is empty — the freshly
constructed Queen was overwritten by the subsequent clearing of the
`from` square, so no Queen is placed at the destination. -/
theorem C6_counterexample :
    boardC6.get_piece ⟨7, 0⟩ = some (some pawnAt70) ∧
    pawnAt70.kind = PieceKind.pawn ∧
    pawnAt70.player = boardC6.current_player ∧
    (boardC6.move_piece ⟨7, 0⟩ ⟨7, 0⟩ 99).bind (fun b2 => b2.get_piece ⟨7, 0⟩)
      = some none := by
  refine ⟨by decide, rfl, rfl, by decide⟩

def pawnC6w : Piece := ⟨PieceKind.pawn, Player.WHITE, false, 32⟩

def boardC6w : Board := ⟨gridPut emptyGrid 6 2 pawnC6w, Player.WHITE, none⟩

/-- Witness for the amended C6: promoting `(6,2) → (7,2)` places a white
Queen (moved, identity 77) on (7,2), empties (6,2), and leaves (0,0)
unchanged. -/
theorem C6_promotion_witness :
    ((boardC6w.move_piece ⟨6, 2⟩ ⟨7, 2⟩ 77).getD boardC6w).get_piece ⟨7, 2⟩
      = some (some ⟨PieceKind.queen, Player.WHITE, true, 77⟩) ∧
    ((boardC6w.move_piece ⟨6, 2⟩ ⟨7, 2⟩ 77).getD boardC6w).get_piece ⟨6, 2⟩
      = some none ∧
    ((boardC6w.move_piece ⟨6, 2⟩ ⟨7, 2⟩ 77).getD boardC6w).get_piece ⟨0, 0⟩
      = boardC6w.get_piece ⟨0, 0⟩ := by
  have hres : boardC6w.move_piece ⟨6, 2⟩ ⟨7, 2⟩ 77
      = some ((boardC6w.move_piece ⟨6, 2⟩ ⟨7, 2⟩ 77).getD boardC6w) := by decide
  obtain ⟨h1, h2, h3⟩ := C6_promotion boardC6w _ ⟨6, 2⟩ ⟨7, 2⟩ pawnC6w 77
    (by decide) (by decide) (by decide) (by decide) rfl rfl (Or.inr rfl) hres
  exact ⟨h1, h2, h3 ⟨0, 0⟩ (by decide) (by decide) (by decide)⟩


/-! ### C4: en passant capture and eligibility flag -/

/-- C4 as amended: for every successful pawn move,
(b) the new `last_move` is flagged en-passant-eligible iff the move goes
from row 1 to row 3 or from row 6 to row 4; and
(a) when the move is **not a promotion** (destination row neither 0 nor 7)
and the previous `last_move` was an eligible double-step whose destination
`s` shares its row with `from`, shares its column with `to`, and differs
from `to`, the square `s` (the double-stepped pawn) is cleared.  On a
promotion move the moving piece is replaced by a Queen *before* the pawn
test, so the en passant capture is skipped (see the counterexample). -/
theorem C4_en_passant (b b' : Board) (fs ts : Square) (p0 : Piece) (qid : Nat)
    (hget : b.get_piece fs = some (some p0))
    (hkind : p0.kind = PieceKind.pawn)
    (hpl : p0.player = b.current_player)
    (hres : b.move_piece fs ts qid = some b') :
    (∃ pm, b'.last_move = some (pm, ts,
      ((decide (ts.row = 3) && decide (fs.row = 1))
        || (decide (ts.row = 4) && decide (fs.row = 6))))) ∧
    (∀ (q : Piece) (s : Square), ts.row ≠ 0 → ts.row ≠ 7 →
      b.last_move = some (q, s, true) → s.row = fs.row → s.col = ts.col →
      s.is_on_board = true → ts.is_on_board = true → fs.is_on_board = true →
      s ≠ ts → b'.get_piece s = some none) := by
  obtain ⟨b1, bmid, en, b3, b4, hcast, hpawn, hnonpawn, hset1, hset2, hb'⟩ :=
    move_piece_success_decomp hget hpl hres
  constructor
  · -- (b) the recorded flag
    refine ⟨{ movingPieceAfterPromotion b p0 ts qid with moved := true }, ?_⟩
    subst hb'
    show some (_, ts, en) = _
    by_cases hpromo : (decide (ts.row = 0) || decide (ts.row = 7)) = true
    · -- promotion: the moving piece became a Queen, the flag stays false,
      -- and the row test is also false
      have hP : movingPieceAfterPromotion b p0 ts qid
          = ⟨PieceKind.queen, b.current_player, false, qid⟩ := by
        unfold movingPieceAfterPromotion
        rw [if_pos (by simp only [hkind]; simpa using hpromo)]
      obtain ⟨_, hen⟩ := hnonpawn (by rw [hP]; dsimp only; decide)
      subst hen
      have h07 : ts.row = 0 ∨ ts.row = 7 := by
        rcases Bool.or_eq_true_iff.mp hpromo with h | h
        · exact Or.inl (of_decide_eq_true h)
        · exact Or.inr (of_decide_eq_true h)
      rcases h07 with h | h <;> simp [h]
    · have hP : movingPieceAfterPromotion b p0 ts qid = p0 := by
        unfold movingPieceAfterPromotion
        rw [if_neg (by simp only [hkind]; simpa using hpromo)]
      obtain ⟨_, hen⟩ := hpawn (by rw [hP]; exact hkind)
      subst hen
      rfl
  · -- (a) the capture
    intro q s hts0 hts7 hlm hrow hcol hsON htsON hfsON hne
    have hP : movingPieceAfterPromotion b p0 ts qid = p0 := by
      unfold movingPieceAfterPromotion
      rw [if_neg (by simp [hkind, hts0, hts7])]
    have hb1 : b1 = b := handle_castling_nonking (by rw [hP, hkind]; decide) hcast
    obtain ⟨hep, _⟩ := hpawn (by rw [hP]; exact hkind)
    rw [hb1] at hep
    -- unfold the en passant handler
    unfold Board.handle_en_passant at hep
    rw [hlm] at hep
    dsimp only at hep
    rw [if_pos (by simp [hrow]), if_pos hcol] at hep
    -- hep : b.set_piece s none = some bmid
    have hs : bmid.get_piece s = some none := get_piece_set_piece_same hep
    have hs3 : b3.get_piece s = bmid.get_piece s :=
      get_piece_set_piece_ne hset1 htsON hsON (fun h => hne h.symm)
    subst hb'
    show b4.get_piece s = some none
    by_cases hsfs : s = fs
    · subst hsfs
      exact get_piece_set_piece_same hset2
    · rw [get_piece_set_piece_ne hset2 hfsON hsON (fun h => hsfs h.symm), hs3, hs]

def pawnC4w : Piece := ⟨PieceKind.pawn, Player.WHITE, false, 5⟩

def pawnC4b : Piece := ⟨PieceKind.pawn, Player.BLACK, true, 6⟩

def boardC4 : Board :=
  ⟨gridPut (gridPut emptyGrid 3 5 pawnC4w) 3 0 pawnC4b, Player.WHITE,
    some (pawnC4b, ⟨3, 0⟩, true)⟩

/-- Counterexample to C4 as stated: the previous move is an eligible
double-step onto (3, 0), the white pawn moves (successfully) from (3, 5)
to (7, 0) — same row as `from`, same column as `to` — yet the
double-stepped pawn on (3, 0) is *not* removed, because the destination
row 7 turns the moving pawn into a Queen before the en passant test. -/
theorem C4_counterexample :
    boardC4.get_piece ⟨3, 5⟩ = some (some pawnC4w) ∧
    pawnC4w.kind = PieceKind.pawn ∧
    pawnC4w.player = boardC4.current_player ∧
    boardC4.last_move = some (pawnC4b, ⟨3, 0⟩, true) ∧
    (⟨3, 0⟩ : Square).row = (⟨3, 5⟩ : Square).row ∧
    (⟨3, 0⟩ : Square).col = (⟨7, 0⟩ : Square).col ∧
    (boardC4.move_piece ⟨3, 5⟩ ⟨7, 0⟩ 99).bind (fun b2 => b2.get_piece ⟨3, 0⟩)
      = some (some pawnC4b) := by
  refine ⟨by decide, rfl, rfl, rfl, rfl, rfl, by decide⟩

def boardC4b : Board :=
  ⟨gridPut (gridPut emptyGrid 3 1 pawnC4w) 3 0 pawnC4b, Player.WHITE,
    some (pawnC4b, ⟨3, 0⟩, true)⟩

/-- Witness for the amended C4: a genuine en passant capture
`(3,1) → (4,0)` removes the double-stepped black pawn from (3, 0). -/
theorem C4_en_passant_witness :
    ((boardC4b.move_piece ⟨3, 1⟩ ⟨4, 0⟩ 99).getD boardC4b).get_piece ⟨3, 0⟩
      = some none := by
  have hres : boardC4b.move_piece ⟨3, 1⟩ ⟨4, 0⟩ 99
      = some ((boardC4b.move_piece ⟨3, 1⟩ ⟨4, 0⟩ 99).getD boardC4b) := by decide
  obtain ⟨_, ha⟩ := C4_en_passant boardC4b _ ⟨3, 1⟩ ⟨4, 0⟩ pawnC4w 99
    (by decide) rfl rfl hres
  exact ha pawnC4b ⟨3, 0⟩ (by decide) (by decide) rfl rfl rfl (by decide)
    (by decide) (by decide) (by decide)


/-! ### C9: moving a piece onto its own square deletes it -/

theorem someMap {α β : Type} (a : α) (f : α → β) : (some a).map f = some (f a) := rfl

theorem square_ext {a b : Square} (h1 : a.row = b.row) (h2 : a.col = b.col) :
    a = b := by
  cases a
  cases b
  dsimp only at h1 h2
  rw [h1, h2]

theorem handle_castling_self (b : Board) (s : Square) (piece : Piece) :
    b.handle_castling s s piece = some b := by
  unfold Board.handle_castling
  by_cases hk : piece.kind ≠ PieceKind.king
  · rw [if_pos hk]
  · rw [if_neg hk, if_neg (by simp)]

theorem handle_en_passant_self {b : Board} {s : Square} {p0 : Piece}
    (hget : b.get_piece s = some (some p0)) :
    ∃ bmid, b.handle_en_passant s s = some bmid ∧
      (bmid = b ∨ b.set_piece s none = some bmid) ∧
      ∃ op, bmid.get_piece s = some op := by
  unfold Board.handle_en_passant
  cases hlm : b.last_move with
  | none => exact ⟨b, rfl, Or.inl rfl, some p0, hget⟩
  | some lm =>
    dsimp only
    by_cases h1 : (lm.2.2 && decide (lm.2.1.row = s.row)) = true
    · rw [if_pos h1]
      by_cases h2 : lm.2.1.col = s.col
      · rw [if_pos h2]
        have hrow : lm.2.1.row = s.row := by
          obtain ⟨_, hr⟩ := Bool.and_eq_true_iff.mp h1
          exact of_decide_eq_true hr
        have hsq : lm.2.1 = s := square_ext hrow h2
        rw [hsq]
        obtain ⟨bmid, hset⟩ := set_piece_isSome_of_get hget none
        exact ⟨bmid, hset, Or.inr hset, none, get_piece_set_piece_same hset⟩
      · rw [if_neg h2]
        exact ⟨b, rfl, Or.inl rfl, some p0, hget⟩
    · rw [if_neg h1]
      exact ⟨b, rfl, Or.inl rfl, some p0, hget⟩

/-- C9: if `s` (on the board) holds a piece of `current_player`, then
`move_piece(s, s)` succeeds and removes the piece from the board entirely:
`s` ends empty, every other square is unchanged (so the piece occupies no
square), while `last_move` records the move with a `moved = true` piece
and `current_player` is flipped. -/
theorem C9_move_to_same_square_deletes (b : Board) (s : Square) (p0 : Piece)
    (qid : Nat)
    (hON : s.is_on_board = true)
    (hget : b.get_piece s = some (some p0))
    (hpl : p0.player = b.current_player) :
    ∃ b', b.move_piece s s qid = some b' ∧
      b'.get_piece s = some none ∧
      b'.current_player = b.current_player.opponent ∧
      (∃ pm en, b'.last_move = some (pm, s, en) ∧ pm.moved = true) ∧
      ∀ sq : Square, sq.is_on_board = true → sq ≠ s →
        b'.get_piece sq = b.get_piece sq := by
  unfold Board.move_piece
  rw [hget, someBind]
  dsimp only
  rw [if_pos hpl, handle_castling_self, someBind]
  by_cases hk : (movingPieceAfterPromotion b p0 s qid).kind = PieceKind.pawn
  · rw [if_pos hk]
    obtain ⟨bmid, hep, hmid, op, hmidget⟩ := handle_en_passant_self hget
    rw [hep, someMap, someBind]
    dsimp only
    obtain ⟨b3, hset1⟩ := set_piece_isSome_of_get hmidget
      (some { movingPieceAfterPromotion b p0 s qid with moved := true })
    rw [hset1, someBind]
    have h3get : b3.get_piece s
        = some (some { movingPieceAfterPromotion b p0 s qid with moved := true }) :=
      get_piece_set_piece_same hset1
    obtain ⟨b4, hset2⟩ := set_piece_isSome_of_get h3get none
    rw [hset2, someMap]
    refine ⟨_, rfl, ?_, rfl, ⟨_, _, rfl, rfl⟩, ?_⟩
    · show b4.get_piece s = some none
      exact get_piece_set_piece_same hset2
    · intro sq hsON hne
      show b4.get_piece sq = b.get_piece sq
      rw [get_piece_set_piece_ne hset2 hON hsON (fun h => hne h.symm),
        get_piece_set_piece_ne hset1 hON hsON (fun h => hne h.symm)]
      rcases hmid with rfl | hset0
      · rfl
      · exact get_piece_set_piece_ne hset0 hON hsON (fun h => hne h.symm)
  · rw [if_neg hk, someBind]
    dsimp only
    obtain ⟨b3, hset1⟩ := set_piece_isSome_of_get hget
      (some { movingPieceAfterPromotion b p0 s qid with moved := true })
    rw [hset1, someBind]
    have h3get : b3.get_piece s
        = some (some { movingPieceAfterPromotion b p0 s qid with moved := true }) :=
      get_piece_set_piece_same hset1
    obtain ⟨b4, hset2⟩ := set_piece_isSome_of_get h3get none
    rw [hset2, someMap]
    refine ⟨_, rfl, ?_, rfl, ⟨_, _, rfl, rfl⟩, ?_⟩
    · show b4.get_piece s = some none
      exact get_piece_set_piece_same hset2
    · intro sq hsON hne
      show b4.get_piece sq = b.get_piece sq
      rw [get_piece_set_piece_ne hset2 hON hsON (fun h => hne h.symm),
        get_piece_set_piece_ne hset1 hON hsON (fun h => hne h.symm)]

/-- Witness for C9: deleting the black rook of `boardWrongTurn` (current
player set to BLACK) by moving it onto its own square. -/
def boardC9 : Board := ⟨gridPut emptyGrid 4 4 blackRookPiece, Player.BLACK, none⟩

theorem C9_move_to_same_square_deletes_witness :
    ((boardC9.move_piece ⟨4, 4⟩ ⟨4, 4⟩ 0).getD boardC9).get_piece ⟨4, 4⟩
      = some none ∧
    ((boardC9.move_piece ⟨4, 4⟩ ⟨4, 4⟩ 0).getD boardC9).current_player
      = Player.BLACK.opponent := by
  obtain ⟨b', hres, hempty, hflip, _, _⟩ :=
    C9_move_to_same_square_deletes boardC9 ⟨4, 4⟩ blackRookPiece 0
      (by decide) (by decide) rfl
  rw [hres]
  exact ⟨hempty, hflip⟩


/-! ### Totality of move generation on a well-sized board -/

theorem knight_gmid_of_find {b : Board} {pid : Nat} {sq : Square}
    (hfind : b.find_piece pid = some sq) (dir : Int × Int) :
    Knight.get_moves_in_direction b pid dir = singleStepFrom b sq dir := by
  unfold Knight.get_moves_in_direction
  rw [hfind]
  rfl

theorem piece_gmid_of_find {b : Board} {pid : Nat} {sq : Square}
    (hfind : b.find_piece pid = some sq) (dir : Int × Int) :
    Piece.get_moves_in_direction b pid dir = gmidAux b sq dir 17 1 := by
  unfold Piece.get_moves_in_direction
  rw [hfind]
  rfl

theorem singleStepFrom_total {b : Board} {sq : Square} {q : Piece}
    (h8 : WellSized b) (hq : b.get_piece sq = some (some q)) (dir : Int × Int) :
    ∃ l, singleStepFrom b sq dir = some l ∧ ∀ m ∈ l, m.is_on_board = true := by
  unfold singleStepFrom
  by_cases hon : (sq.translate_by (dir.1 * 1, dir.2 * 1)).is_on_board
  · rw [if_pos hon]
    obtain ⟨op, hop⟩ := get_piece_onboard_isSome h8 hon
    rw [hop]
    cases op with
    | none =>
      refine ⟨_, rfl, ?_⟩
      intro m hm
      rw [List.mem_singleton] at hm
      subst hm
      exact hon
    | some q' =>
      rw [hq]
      dsimp only
      refine ⟨_, rfl, ?_⟩
      intro m hm
      by_cases hne : q.player ≠ q'.player
      · rw [if_pos hne] at hm
        rw [List.mem_singleton] at hm
        subst hm
        exact hon
      · rw [if_neg hne] at hm
        cases hm
  · rw [if_neg hon]
    exact ⟨[], rfl, fun m hm => absurd hm (List.not_mem_nil m)⟩

theorem gmid_total {b : Board} {pid : Nat} {sq : Square}
    (h8 : WellSized b) (hfind : b.find_piece pid = some sq) (dir : Int × Int) :
    ∃ l, Piece.get_moves_in_direction b pid dir = some l ∧
      ∀ m ∈ l, m.is_on_board = true := by
  obtain ⟨hon, q, hq, _⟩ := find_piece_spec hfind
  obtain ⟨L, hL, hiff⟩ := gmidAux_char h8 hq 17 1 (le_refl 1) (ray_stop_exists dir hq)
  refine ⟨L, by rw [piece_gmid_of_find hfind]; exact hL, ?_⟩
  intro m hm
  obtain ⟨k, hk, hm', honb, _, _⟩ := (hiff m).mp hm
  rw [hm']
  exact honb k hk (le_refl k)

theorem check_diagonal_onboard {b : Board} {start cand : Square} {l : List Square}
    (h : Pawn.check_diagonal b start cand = some l) :
    ∀ m ∈ l, m.is_on_board = true := by
  unfold Pawn.check_diagonal at h
  by_cases hon : cand.is_on_board
  · rw [if_pos hon] at h
    obtain ⟨e, he, h⟩ := bindSome h
    by_cases hE : e = true
    · rw [if_pos hE] at h
      cases h
      intro m hm
      cases hm
    · rw [if_neg hE] at h
      obtain ⟨cp, hcp, hl⟩ := mapSome h
      subst hl
      intro m hm
      by_cases hC : cp = true
      · rw [if_pos hC] at hm
        rw [List.mem_singleton] at hm
        subst hm
        have : (⟨cand.row, cand.col⟩ : Square) = cand := square_ext rfl rfl
        rw [this]
        exact hon
      · rw [if_neg hC] at hm
        cases hm
  · rw [if_neg hon] at h
    cases h
    intro m hm
    cases hm

theorem forward_moves_total {b : Board} {p : Piece} {sq : Square}
    (h8 : WellSized b) (hon : sq.is_on_board = true) :
    ∃ l, Pawn.forward_moves b p sq = some l ∧ ∀ m ∈ l, m.is_on_board = true := by
  obtain ⟨hr0, hr1, hc0, hc1⟩ := square_onboard_iff.mp hon
  unfold Pawn.forward_moves
  dsimp only
  set D : Int := if p.player = Player.WHITE then 1 else -1 with hD
  by_cases h1 : (⟨sq.row + D, sq.col⟩ : Square).is_on_board
  · rw [if_pos h1]
    obtain ⟨op, hop⟩ := get_piece_onboard_isSome h8 h1
    have hemp : b.is_square_empty ⟨sq.row + D, sq.col⟩ = some op.isNone := by
      unfold Board.is_square_empty
      rw [hop]
      rfl
    rw [hemp, someBind]
    cases op with
    | some pc =>
      rw [if_neg (by simp)]
      exact ⟨[], rfl, fun m hm => absurd hm (List.not_mem_nil m)⟩
    | none =>
      rw [if_pos (show (none : Option Piece).isNone = true from rfl)]
      by_cases hsp : Pawn.is_at_start_position p sq = true
      · rw [if_pos hsp]
        have hrow : (p.player = Player.WHITE ∧ sq.row = 1) ∨
            (p.player = Player.BLACK ∧ sq.row = 6) := by
          unfold Pawn.is_at_start_position at hsp
          simp only [Bool.or_eq_true, Bool.and_eq_true, decide_eq_true_eq] at hsp
          exact hsp
        have h2on : (⟨sq.row + D + D, sq.col⟩ : Square).is_on_board = true := by
          rw [square_onboard_iff]
          dsimp only
          rcases hrow with ⟨hw, hr⟩ | ⟨hb, hr⟩
          · rw [hD, if_pos hw]
            omega
          · rw [hD, if_neg (by rw [hb]; decide)]
            omega
        obtain ⟨op2, hop2⟩ := get_piece_onboard_isSome h8 h2on
        have hemp2 : b.is_square_empty ⟨sq.row + D + D, sq.col⟩
            = some op2.isNone := by
          unfold Board.is_square_empty
          rw [hop2]
          rfl
        rw [hemp2, someMap]
        refine ⟨_, rfl, ?_⟩
        intro m hm
        split at hm
        · rcases List.mem_cons.mp hm with rfl | hm2
          · exact h1
          · rw [List.mem_singleton] at hm2
            subst hm2
            exact h2on
        · rw [List.mem_singleton] at hm
          subst hm
          exact h1
      · rw [if_neg hsp]
        refine ⟨_, rfl, ?_⟩
        intro m hm
        rw [List.mem_singleton] at hm
        subst hm
        exact h1
  · rw [if_neg h1]
    exact ⟨[], rfl, fun m hm => absurd hm (List.not_mem_nil m)⟩


theorem optApp {o1 o2 : Option (List Square)} {P : Square → Prop}
    (h1 : ∃ l, o1 = some l ∧ ∀ m ∈ l, P m)
    (h2 : ∃ l, o2 = some l ∧ ∀ m ∈ l, P m) :
    ∃ l, (o1.bind fun a => o2.map fun c => a ++ c) = some l ∧ ∀ m ∈ l, P m := by
  obtain ⟨l1, e1, p1⟩ := h1
  obtain ⟨l2, e2, p2⟩ := h2
  refine ⟨l1 ++ l2, by rw [e1, someBind, e2, someMap], ?_⟩
  intro m hm
  rcases List.mem_append.mp hm with h | h
  · exact p1 m h
  · exact p2 m h

theorem optAppRev {o1 o2 : Option (List Square)} {P : Square → Prop}
    (h1 : ∃ l, o1 = some l ∧ ∀ m ∈ l, P m)
    (h2 : ∃ l, o2 = some l ∧ ∀ m ∈ l, P m) :
    ∃ l, (o1.bind fun a => o2.map fun c => c ++ a) = some l ∧ ∀ m ∈ l, P m := by
  obtain ⟨l1, e1, p1⟩ := h1
  obtain ⟨l2, e2, p2⟩ := h2
  refine ⟨l2 ++ l1, by rw [e1, someBind, e2, someMap], ?_⟩
  intro m hm
  rcases List.mem_append.mp hm with h | h
  · exact p2 m h
  · exact p1 m h

theorem optApp4 {o1 o2 o3 o4 : Option (List Square)} {P : Square → Prop}
    (h1 : ∃ l, o1 = some l ∧ ∀ m ∈ l, P m)
    (h2 : ∃ l, o2 = some l ∧ ∀ m ∈ l, P m)
    (h3 : ∃ l, o3 = some l ∧ ∀ m ∈ l, P m)
    (h4 : ∃ l, o4 = some l ∧ ∀ m ∈ l, P m) :
    ∃ l, (o1.bind fun m1 => o2.bind fun m2 => o3.bind fun m3 => o4.map fun m4 =>
      m1 ++ m2 ++ m3 ++ m4) = some l ∧ ∀ m ∈ l, P m := by
  obtain ⟨l1, e1, p1⟩ := h1
  obtain ⟨l2, e2, p2⟩ := h2
  obtain ⟨l3, e3, p3⟩ := h3
  obtain ⟨l4, e4, p4⟩ := h4
  refine ⟨l1 ++ l2 ++ l3 ++ l4,
    by rw [e1, someBind, e2, someBind, e3, someBind, e4, someMap], ?_⟩
  intro m hm
  rcases List.mem_append.mp hm with hm | h4'
  · rcases List.mem_append.mp hm with hm | h3'
    · rcases List.mem_append.mp hm with h1' | h2'
      · exact p1 m h1'
      · exact p2 m h2'
    · exact p3 m h3'
  · exact p4 m h4'

theorem pawn_moves_total {b : Board} {p : Piece} {sq : Square}
    (h8 : WellSized b) (hfind : b.find_piece p.id = some sq) :
    ∃ mvs, Pawn.get_available_moves b p = some mvs ∧
      ∀ m ∈ mvs, m.is_on_board = true := by
  obtain ⟨hon, q, hq, _⟩ := find_piece_spec hfind
  have hred : Pawn.get_available_moves b p = Pawn.moves_from b p sq := by
    unfold Pawn.get_available_moves
    rw [hfind]
    rfl
  rw [hred]
  unfold Pawn.moves_from
  dsimp only
  obtain ⟨fm, hfm, hfmP⟩ := forward_moves_total (p := p) h8 hon
  rw [hfm, someBind]
  obtain ⟨dr, hdr⟩ := check_diagonal_isSome
    ⟨sq.row + (if p.player = Player.WHITE then 1 else -1), sq.col + 1⟩ h8 hq
  rw [hdr, someBind]
  obtain ⟨dl, hdl⟩ := check_diagonal_isSome
    ⟨sq.row + (if p.player = Player.WHITE then 1 else -1), sq.col - 1⟩ h8 hq
  rw [hdl, someMap]
  refine ⟨_, rfl, ?_⟩
  intro m hm
  rcases List.mem_append.mp hm with hm2 | hdl'
  · rcases List.mem_append.mp hm2 with hf | hdr'
    · exact hfmP m hf
    · exact check_diagonal_onboard hdr m hdr'
  · exact check_diagonal_onboard hdl m hdl'

theorem knight_gmid_total {b : Board} {pid : Nat} {sq : Square}
    (h8 : WellSized b) (hfind : b.find_piece pid = some sq) (dir : Int × Int) :
    ∃ l, Knight.get_moves_in_direction b pid dir = some l ∧
      ∀ m ∈ l, m.is_on_board = true := by
  obtain ⟨hon, q, hq, _⟩ := find_piece_spec hfind
  rw [knight_gmid_of_find hfind]
  exact singleStepFrom_total h8 hq dir

theorem king_gmid_total {b : Board} {pid : Nat} {sq : Square}
    (h8 : WellSized b) (hfind : b.find_piece pid = some sq) (dir : Int × Int) :
    ∃ l, King.get_moves_in_direction b pid dir = some l ∧
      ∀ m ∈ l, m.is_on_board = true := by
  obtain ⟨hon, q, hq, _⟩ := find_piece_spec hfind
  rw [king_gmid_of_find hfind]
  exact singleStepFrom_total h8 hq dir

theorem knight_moves_total {b : Board} {pid : Nat} {sq : Square}
    (h8 : WellSized b) (hfind : b.find_piece pid = some sq) :
    ∃ mvs, Knight.get_available_moves b pid = some mvs ∧
      ∀ m ∈ mvs, m.is_on_board = true := by
  unfold Knight.get_available_moves
  exact optApp4
    (by unfold Knight.get_upright_moves
        exact optAppRev (knight_gmid_total h8 hfind _) (knight_gmid_total h8 hfind _))
    (by unfold Knight.get_downright_moves
        exact optAppRev (knight_gmid_total h8 hfind _) (knight_gmid_total h8 hfind _))
    (by unfold Knight.get_downleft_moves
        exact optApp (knight_gmid_total h8 hfind _) (knight_gmid_total h8 hfind _))
    (by unfold Knight.get_upleft_moves
        exact optAppRev (knight_gmid_total h8 hfind _) (knight_gmid_total h8 hfind _))

theorem bishop_moves_total {b : Board} {pid : Nat} {sq : Square}
    (h8 : WellSized b) (hfind : b.find_piece pid = some sq) :
    ∃ mvs, Bishop.get_available_moves b pid = some mvs ∧
      ∀ m ∈ mvs, m.is_on_board = true := by
  unfold Bishop.get_available_moves
  exact optApp
    (by unfold slidingFsMoves
        exact optApp (gmid_total h8 hfind _) (gmid_total h8 hfind _))
    (by unfold slidingBsMoves
        exact optApp (gmid_total h8 hfind _) (gmid_total h8 hfind _))

theorem rook_moves_total {b : Board} {pid : Nat} {sq : Square}
    (h8 : WellSized b) (hfind : b.find_piece pid = some sq) :
    ∃ mvs, Rook.get_available_moves b pid = some mvs ∧
      ∀ m ∈ mvs, m.is_on_board = true := by
  unfold Rook.get_available_moves
  exact optApp
    (by unfold slidingVerticalMoves
        exact optApp (gmid_total h8 hfind _) (gmid_total h8 hfind _))
    (by unfold slidingHorizontalMoves
        exact optApp (gmid_total h8 hfind _) (gmid_total h8 hfind _))

theorem queen_moves_total {b : Board} {pid : Nat} {sq : Square}
    (h8 : WellSized b) (hfind : b.find_piece pid = some sq) :
    ∃ mvs, Queen.get_available_moves b pid = some mvs ∧
      ∀ m ∈ mvs, m.is_on_board = true := by
  unfold Queen.get_available_moves
  exact optApp4
    (by unfold slidingFsMoves
        exact optApp (gmid_total h8 hfind _) (gmid_total h8 hfind _))
    (by unfold slidingBsMoves
        exact optApp (gmid_total h8 hfind _) (gmid_total h8 hfind _))
    (by unfold slidingVerticalMoves
        exact optApp (gmid_total h8 hfind _) (gmid_total h8 hfind _))
    (by unfold slidingHorizontalMoves
        exact optApp (gmid_total h8 hfind _) (gmid_total h8 hfind _))

theorem king_moves_total {b : Board} {pid : Nat} {sq : Square}
    (h8 : WellSized b) (hfind : b.find_piece pid = some sq) :
    ∃ mvs, King.get_available_moves b pid = some mvs ∧
      ∀ m ∈ mvs, m.is_on_board = true := by
  unfold King.get_available_moves
  exact optApp4
    (by unfold King.get_fs_moves
        exact optApp (king_gmid_total h8 hfind _) (king_gmid_total h8 hfind _))
    (by unfold King.get_bs_moves
        exact optApp (king_gmid_total h8 hfind _) (king_gmid_total h8 hfind _))
    (by unfold King.get_vertical_moves
        exact optApp (king_gmid_total h8 hfind _) (king_gmid_total h8 hfind _))
    (by unfold King.get_horizontal_moves
        exact optApp (king_gmid_total h8 hfind _) (king_gmid_total h8 hfind _))

theorem get_available_moves_total {b : Board} {p : Piece} {sq : Square}
    (h8 : WellSized b) (hfind : b.find_piece p.id = some sq) :
    ∃ mvs, Piece.get_available_moves b p = some mvs ∧
      ∀ m ∈ mvs, m.is_on_board = true := by
  unfold Piece.get_available_moves
  cases hk : p.kind
  · exact pawn_moves_total h8 hfind
  · exact knight_moves_total h8 hfind
  · exact bishop_moves_total h8 hfind
  · exact rook_moves_total h8 hfind
  · exact queen_moves_total h8 hfind
  · exact king_moves_total h8 hfind

theorem findPieceAux_isSome {b : Board} {pid : Nat} (h8 : WellSized b) :
    ∀ l : List (Nat × Nat), (∀ rc ∈ l, rc.1 < 8 ∧ rc.2 < 8) →
    (∃ rc ∈ l, ∃ q : Piece,
      b.get_piece ⟨(rc.1 : Int), (rc.2 : Int)⟩ = some (some q) ∧ q.id = pid) →
    ∃ sq, findPieceAux b pid l = some sq := by
  intro l
  induction l with
  | nil =>
    rintro _ ⟨rc, hmem, _⟩
    cases hmem
  | cons rc rest ih =>
    rintro hb ⟨rc', hmem', q, hq, hid⟩
    have hon : (⟨(rc.1 : Int), (rc.2 : Int)⟩ : Square).is_on_board = true := by
      rw [square_onboard_iff]
      have := hb rc (List.mem_cons_self _ _)
      dsimp only
      omega
    obtain ⟨op, hop⟩ := get_piece_onboard_isSome h8 hon
    unfold findPieceAux
    rw [hop]
    cases op with
    | none =>
      dsimp only
      refine ih (fun x hx => hb x (List.mem_cons_of_mem _ hx)) ⟨rc', ?_, q, hq, hid⟩
      rcases List.mem_cons.mp hmem' with rfl | hm
      · rw [hq] at hop
        cases hop
      · exact hm
    | some pp =>
      dsimp only
      by_cases hid2 : pp.id = pid
      · rw [if_pos hid2]
        exact ⟨_, rfl⟩
      · rw [if_neg hid2]
        refine ih (fun x hx => hb x (List.mem_cons_of_mem _ hx)) ⟨rc', ?_, q, hq, hid⟩
        rcases List.mem_cons.mp hmem' with rfl | hm
        · rw [hq] at hop
          cases hop
          exact absurd hid hid2
        · exact hm

theorem find_piece_isSome {b : Board} {p : Piece} {r c : Nat}
    (h8 : WellSized b) (hr : r < 8) (hc : c < 8)
    (hat : b.get_piece ⟨(r : Int), (c : Int)⟩ = some (some p)) :
    ∃ sq, b.find_piece p.id = some sq :=
  findPieceAux_isSome h8 boardCoords (fun _ h => mem_boardCoords.mp h)
    ⟨(r, c), mem_boardCoords.mpr ⟨hr, hc⟩, p, hat, rfl⟩


theorem head?_mem {α : Type} {l : List α} {a : α} (h : l.head? = some a) : a ∈ l := by
  cases l with
  | nil => cases h
  | cons x xs =>
    cases h
    exact List.mem_cons_self _ _

/-- On a well-formed board, two on-board squares holding pieces with the
same identity are the same square. -/
theorem wellFormed_eq {b : Board} (hwf : WellFormed b) {sq1 sq2 : Square}
    {p1 p2 : Piece}
    (h1on : sq1.is_on_board = true) (h2on : sq2.is_on_board = true)
    (h1 : b.get_piece sq1 = some (some p1)) (h2 : b.get_piece sq2 = some (some p2))
    (hid : p1.id = p2.id) : sq1 = sq2 := by
  obtain ⟨ha0, ha1, ha2, ha3⟩ := square_onboard_iff.mp h1on
  obtain ⟨hb0, hb1, hb2, hb3⟩ := square_onboard_iff.mp h2on
  have e1 : sq1 = ⟨(sq1.row.toNat : Int), (sq1.col.toNat : Int)⟩ :=
    square_ext (by dsimp only; omega) (by dsimp only; omega)
  have e2 : sq2 = ⟨(sq2.row.toNat : Int), (sq2.col.toNat : Int)⟩ :=
    square_ext (by dsimp only; omega) (by dsimp only; omega)
  have hm1 : (sq1.row.toNat, sq1.col.toNat) ∈ boardCoords :=
    mem_boardCoords.mpr ⟨by omega, by omega⟩
  have hm2 : (sq2.row.toNat, sq2.col.toNat) ∈ boardCoords :=
    mem_boardCoords.mpr ⟨by omega, by omega⟩
  have hi1 : idAt b sq1.row.toNat sq1.col.toNat = some p1.id := by
    unfold idAt
    rw [← e1, h1]
  have hi2 : idAt b sq2.row.toNat sq2.col.toNat = some p2.id := by
    unfold idAt
    rw [← e2, h2]
  have := hwf (sq1.row.toNat, sq1.col.toNat) hm1 (sq2.row.toNat, sq2.col.toNat) hm2
    (by rw [hi1, hi2, hid]) (by rw [hi1]; simp)
  rw [e1, e2]
  have hr : sq1.row.toNat = sq2.row.toNat := congrArg Prod.fst this
  have hc : sq1.col.toNat = sq2.col.toNat := congrArg Prod.snd this
  rw [hr, hc]

theorem bestFold {b : Board} {mvs : List Square} (h8 : WellSized b) :
    ∀ (l : List Square) (acc : Square × Nat), (∀ m ∈ l, m.is_on_board = true) →
      (∀ m ∈ l, m ∈ mvs) → acc.1 ∈ mvs →
      ∃ res, l.foldlM (bestStep b) acc = some res ∧ res.1 ∈ mvs := by
  intro l
  induction l with
  | nil =>
    intro acc _ _ hacc
    exact ⟨acc, rfl, hacc⟩
  | cons m rest ih =>
    intro acc honb hsub hacc
    rw [List.foldlM_cons]
    obtain ⟨op, hop⟩ := get_piece_onboard_isSome h8 (honb m (List.mem_cons_self _ _))
    have hstep : bestStep b acc m
        = some (if acc.2 < pieceValue op then (m, pieceValue op) else acc) := by
      unfold bestStep
      rw [hop]
      rfl
    rw [hstep]
    refine ih _ (fun x hx => honb x (List.mem_cons_of_mem _ hx))
      (fun x hx => hsub x (List.mem_cons_of_mem _ hx)) ?_
    by_cases hlt : acc.2 < pieceValue op
    · rw [if_pos hlt]
      exact hsub m (List.mem_cons_self _ _)
    · rw [if_neg hlt]
      exact hacc

theorem get_best_move_total {b : Board} (piece : Piece) {mvs : List Square}
    (h8 : WellSized b) (hne : mvs ≠ []) (honb : ∀ m ∈ mvs, m.is_on_board = true) :
    ∃ bm sc, b.get_best_move (piece, mvs) = some (bm, sc) ∧ bm ∈ mvs := by
  unfold Board.get_best_move
  obtain ⟨m0, hm0⟩ : ∃ a, mvs.head? = some a := by
    cases hl : mvs with
    | nil => exact absurd hl hne
    | cons x xs => exact ⟨x, rfl⟩
  dsimp only
  rw [hm0, someBind]
  obtain ⟨res, hres, hmem⟩ := bestFold h8 mvs (m0, 0) honb (fun x hx => hx)
    (head?_mem hm0)
  exact ⟨res.1, res.2, by rw [hres], hmem⟩


theorem botFold {b : Board} (h8 : WellSized b) :
    ∀ (l : List (Nat × Nat)), (∀ rc ∈ l, rc.1 < 8 ∧ rc.2 < 8) →
    ∀ acc : List (Piece × List Square),
    ∃ L, l.foldlM (botStep b) acc = some L ∧
      (∀ pm ∈ L, pm ∈ acc ∨ ∃ r c : Nat, r < 8 ∧ c < 8 ∧
        b.get_piece ⟨(r : Int), (c : Int)⟩ = some (some pm.1) ∧
        pm.1.player = Player.BLACK ∧
        Piece.get_available_moves b pm.1 = some pm.2 ∧ pm.2 ≠ []) ∧
      (∀ rc ∈ l, ∀ (p : Piece) (mv : List Square),
        b.get_piece ⟨(rc.1 : Int), (rc.2 : Int)⟩ = some (some p) →
        p.player = Player.BLACK → Piece.get_available_moves b p = some mv →
        mv ≠ [] → (p, mv) ∈ L) ∧
      (∀ pm ∈ acc, pm ∈ L) := by
  intro l
  induction l with
  | nil =>
    intro _ acc
    exact ⟨acc, rfl, fun pm hpm => Or.inl hpm,
      fun rc hrc => absurd hrc (List.not_mem_nil rc), fun pm h => h⟩
  | cons rc rest ih =>
    intro hb acc
    obtain ⟨hr8, hc8⟩ := hb rc (List.mem_cons_self _ _)
    have hrest : ∀ x ∈ rest, x.1 < 8 ∧ x.2 < 8 :=
      fun x hx => hb x (List.mem_cons_of_mem _ hx)
    rw [List.foldlM_cons]
    have hon : (⟨(rc.1 : Int), (rc.2 : Int)⟩ : Square).is_on_board = true := by
      rw [square_onboard_iff]
      dsimp only
      omega
    obtain ⟨op, hop⟩ := get_piece_onboard_isSome h8 hon
    cases op with
    | none =>
      have hstep : botStep b acc rc = some acc := by
        unfold botStep
        rw [hop]
        rfl
      rw [hstep]
      obtain ⟨L, hL, hP, hQ, hsub⟩ := ih hrest acc
      refine ⟨L, hL, hP, ?_, hsub⟩
      intro rc' hmem' p mv hgp hbl hmv hne
      rcases List.mem_cons.mp hmem' with rfl | hm
      · rw [hop] at hgp
        cases hgp
      · exact hQ rc' hm p mv hgp hbl hmv hne
    | some piece =>
      obtain ⟨fsq, hfind⟩ := find_piece_isSome h8 hr8 hc8 hop
      obtain ⟨mvsp, hmvsp, _⟩ := get_available_moves_total h8 hfind
      by_cases hcond :
          (decide (piece.player = Player.BLACK) && decide (mvsp ≠ [])) = true
      · have hstep : botStep b acc rc = some (acc ++ [(piece, mvsp)]) := by
          unfold botStep
          rw [hop, someBind]
          dsimp only
          rw [hmvsp, someBind, if_pos hcond, someMap]
        rw [hstep]
        obtain ⟨L, hL, hP, hQ, hsub⟩ := ih hrest (acc ++ [(piece, mvsp)])
        obtain ⟨hbl', hne'⟩ := Bool.and_eq_true_iff.mp hcond
        refine ⟨L, hL, ?_, ?_, fun pm h => hsub pm (List.mem_append_left _ h)⟩
        · intro pm hpm
          rcases hP pm hpm with hin | hex
          · rcases List.mem_append.mp hin with h | h
            · exact Or.inl h
            · rw [List.mem_singleton] at h
              subst h
              exact Or.inr ⟨rc.1, rc.2, hr8, hc8, hop,
                of_decide_eq_true hbl', hmvsp, of_decide_eq_true hne'⟩
          · exact Or.inr hex
        · intro rc' hmem' p mv hgp hbl hmv hne
          rcases List.mem_cons.mp hmem' with rfl | hm
          · rw [hop] at hgp
            have hpp : piece = p := Option.some_inj.mp (Option.some_inj.mp hgp)
            subst hpp
            rw [hmvsp] at hmv
            have hmm : mvsp = mv := Option.some_inj.mp hmv
            subst hmm
            exact hsub _ (List.mem_append_right _ (List.mem_singleton_self _))
          · exact hQ rc' hm p mv hgp hbl hmv hne
      · have hstep : botStep b acc rc = some acc := by
          unfold botStep
          rw [hop, someBind]
          dsimp only
          rw [hmvsp, someBind, if_neg hcond]
        rw [hstep]
        obtain ⟨L, hL, hP, hQ, hsub⟩ := ih hrest acc
        refine ⟨L, hL, hP, ?_, hsub⟩
        intro rc' hmem' p mv hgp hbl hmv hne
        rcases List.mem_cons.mp hmem' with rfl | hm
        · exfalso
          rw [hop] at hgp
          have hpp : piece = p := Option.some_inj.mp (Option.some_inj.mp hgp)
          subst hpp
          rw [hmvsp] at hmv
          have hmm : mvsp = mv := Option.some_inj.mp hmv
          subst hmm
          exact hcond (by simp [hbl, hne])
        · exact hQ rc' hm p mv hgp hbl hmv hne

theorem highFold {b : Board} {L : List (Piece × List Square)} (h8 : WellSized b)
    (hLgood : ∀ pm ∈ L, ∃ r c : Nat, r < 8 ∧ c < 8 ∧
      b.get_piece ⟨(r : Int), (c : Int)⟩ = some (some pm.1) ∧
      pm.1.player = Player.BLACK ∧
      Piece.get_available_moves b pm.1 = some pm.2 ∧ pm.2 ≠ []) :
    ∀ (l : List (Piece × List Square)), (∀ pm ∈ l, pm ∈ L) →
    ∀ acc : List (Piece × Square × Nat),
    ∃ H, l.foldlM (highStep b) acc = some H ∧
      (∀ x ∈ H, x ∈ acc ∨ ∃ pm ∈ L, x.1 = pm.1 ∧ x.2.1 ∈ pm.2) ∧
      H.length = acc.length + l.length := by
  intro l
  induction l with
  | nil =>
    intro _ acc
    exact ⟨acc, rfl, fun x hx => Or.inl hx, rfl⟩
  | cons pm rest ih =>
    intro hsub acc
    have hpmL : pm ∈ L := hsub pm (List.mem_cons_self _ _)
    obtain ⟨r, c, hr8, hc8, hat, hbl, hmv, hne⟩ := hLgood pm hpmL
    obtain ⟨fsq, hfind⟩ := find_piece_isSome h8 hr8 hc8 hat
    obtain ⟨mvs', hmvs', honb'⟩ := get_available_moves_total h8 hfind
    rw [hmv] at hmvs'
    have hmm : pm.2 = mvs' := Option.some_inj.mp hmvs'
    have honb : ∀ m ∈ pm.2, m.is_on_board = true := by
      rw [hmm]
      exact honb'
    obtain ⟨bm, sc, hbm, hbmmem⟩ := get_best_move_total pm.1 h8 hne honb
    have hgb : b.get_best_move pm = some (bm, sc) := hbm
    have hstep : highStep b acc pm = some (acc ++ [(pm.1, bm, sc)]) := by
      unfold highStep
      rw [hgb, someMap]
    rw [List.foldlM_cons, hstep]
    obtain ⟨H, hH, hP, hlen⟩ := ih (fun x hx => hsub x (List.mem_cons_of_mem _ hx))
      (acc ++ [(pm.1, bm, sc)])
    refine ⟨H, hH, ?_, ?_⟩
    · intro x hx
      rcases hP x hx with hin | hex
      · rcases List.mem_append.mp hin with h | h
        · exact Or.inl h
        · rw [List.mem_singleton] at h
          subst h
          exact Or.inr ⟨pm, hpmL, rfl, hbmmem⟩
      · exact Or.inr hex
    · rw [hlen]
      simp only [List.length_append, List.length_singleton, List.length_cons,
        List.length_nil]
      omega

theorem scanFold {b : Board} {L : List (Piece × List Square)} (h8 : WellSized b)
    (hLgood : ∀ pm ∈ L, ∃ r c : Nat, r < 8 ∧ c < 8 ∧
      b.get_piece ⟨(r : Int), (c : Int)⟩ = some (some pm.1) ∧
      pm.1.player = Player.BLACK ∧
      Piece.get_available_moves b pm.1 = some pm.2 ∧ pm.2 ≠ []) :
    ∀ (l : List (Piece × Square × Nat)),
      (∀ x ∈ l, ∃ pm ∈ L, x.1 = pm.1 ∧ x.2.1 ∈ pm.2) →
    ∀ acc : Nat × Square × Square,
      (∃ pm ∈ L, acc.2.1 ∈ pm.2 ∧ b.find_piece pm.1.id = some acc.2.2) →
      ∃ res, l.foldlM (scanStep b) acc = some res ∧
        ∃ pm ∈ L, res.2.1 ∈ pm.2 ∧ b.find_piece pm.1.id = some res.2.2 := by
  intro l
  induction l with
  | nil =>
    intro _ acc hacc
    exact ⟨acc, rfl, hacc⟩
  | cons x rest ih =>
    intro hgood acc hacc
    rw [List.foldlM_cons]
    by_cases himp : acc.1 < x.2.2
    · obtain ⟨pm, hpmL, hx1, hx21⟩ := hgood x (List.mem_cons_self _ _)
      obtain ⟨r, c, hr8, hc8, hat, _, _, _⟩ := hLgood pm hpmL
      obtain ⟨fs, hfs⟩ := find_piece_isSome h8 hr8 hc8 hat
      have hfindx : b.find_piece x.1.id = some fs := by
        rw [hx1]
        exact hfs
      have hstep : scanStep b acc x = some (x.2.2, x.2.1, fs) := by
        unfold scanStep
        rw [if_pos himp, hfindx, someMap]
      rw [hstep]
      exact ih (fun y hy => hgood y (List.mem_cons_of_mem _ hy)) _
        ⟨pm, hpmL, hx21, hfs⟩
    · have hstep : scanStep b acc x = some acc := by
        unfold scanStep
        rw [if_neg himp]
      rw [hstep]
      exact ih (fun y hy => hgood y (List.mem_cons_of_mem _ hy)) _ hacc

theorem get_mod_mem {α : Type} {l : List α} (hne : l ≠ []) (k : Nat) :
    ∃ x, l.get? (k % l.length) = some x ∧ x ∈ l := by
  have hpos : 0 < l.length := List.length_pos.mpr hne
  have hlt : k % l.length < l.length := Nat.mod_lt k hpos
  cases hx : l.get? (k % l.length) with
  | none =>
    have := List.get?_eq_none.mp hx
    omega
  | some x => exact ⟨x, rfl, List.get?_mem hx⟩


/-! ### C8: bot move selection -/

/-- C8: whenever some BLACK piece on the board has a non-empty move list,
`get_bot_move_squares` (for every random oracle value `k`) returns a pair
`(from_square, destination)` such that the piece standing on `from_square`
is BLACK and `destination` belongs to that piece's current
`get_available_moves` result (in particular the selected piece's move set
is non-empty); and when no BLACK piece has any available move the call
raises instead of returning a value. -/
theorem C8_bot_move_selection (b : Board) (k : Nat)
    (h8 : WellSized b) (hwf : WellFormed b) :
    ((∃ (r c : Nat) (p : Piece) (mv : List Square), r < 8 ∧ c < 8 ∧
        b.get_piece ⟨(r : Int), (c : Int)⟩ = some (some p) ∧
        p.player = Player.BLACK ∧
        Piece.get_available_moves b p = some mv ∧ mv ≠ []) →
      ∃ fr dest piece mvs, b.get_bot_move_squares k = some (fr, dest) ∧
        b.get_piece fr = some (some piece) ∧ piece.player = Player.BLACK ∧
        Piece.get_available_moves b piece = some mvs ∧ dest ∈ mvs ∧ mvs ≠ []) ∧
    ((∀ (r c : Nat) (p : Piece), r < 8 → c < 8 →
        b.get_piece ⟨(r : Int), (c : Int)⟩ = some (some p) →
        p.player = Player.BLACK →
        ∀ mv, Piece.get_available_moves b p = some mv → mv = []) →
      b.get_bot_move_squares k = none) := by
  obtain ⟨L, hL, hP, hQ, _⟩ :=
    botFold h8 boardCoords (fun rc h => mem_boardCoords.mp h) []
  have hLgood : ∀ pm ∈ L, ∃ r c : Nat, r < 8 ∧ c < 8 ∧
      b.get_piece ⟨(r : Int), (c : Int)⟩ = some (some pm.1) ∧
      pm.1.player = Player.BLACK ∧
      Piece.get_available_moves b pm.1 = some pm.2 ∧ pm.2 ≠ [] :=
    fun pm hpm => (hP pm hpm).resolve_left (List.not_mem_nil pm)
  constructor
  · rintro ⟨r, c, p, mv, hr8, hc8, hat, hbl, hmv, hne⟩
    have hmem : (p, mv) ∈ L :=
      hQ (r, c) (mem_boardCoords.mpr ⟨hr8, hc8⟩) p mv hat hbl hmv hne
    have hLne : L ≠ [] := by
      intro h
      rw [h] at hmem
      exact List.not_mem_nil _ hmem
    obtain ⟨H, hH, hHP, hHlen⟩ := highFold h8 hLgood L (fun pm h => h) []
    have hHgood : ∀ x ∈ H, ∃ pm ∈ L, x.1 = pm.1 ∧ x.2.1 ∈ pm.2 :=
      fun x hx => (hHP x hx).resolve_left (List.not_mem_nil x)
    have hHne : H ≠ [] := by
      intro h
      rw [h] at hHlen
      simp only [List.length_nil] at hHlen
      exact hLne (List.length_eq_zero.mp (by omega))
    obtain ⟨rpm, hget, hrpmH⟩ := get_mod_mem hHne k
    obtain ⟨pm0, hpm0L, hr1, hr21⟩ := hHgood rpm hrpmH
    obtain ⟨r0, c0, hr08, hc08, hat0, _, _, _⟩ := hLgood pm0 hpm0L
    obtain ⟨fs0, hfs0⟩ := find_piece_isSome h8 hr08 hc08 hat0
    have hfindr : b.find_piece rpm.1.id = some fs0 := by
      rw [hr1]
      exact hfs0
    obtain ⟨res, hscan, pm', hpm'L, hres1, hresfind⟩ := scanFold h8 hLgood H hHgood
      (rpm.2.2, rpm.2.1, fs0) ⟨pm0, hpm0L, hr21, hfs0⟩
    have hbot : b.get_bot_move_squares k = some (res.2.2, res.2.1) := by
      unfold Board.get_bot_move_squares
      rw [show botAllMoves b = some L from hL, someBind, hH, someBind,
        hget, someBind]
      dsimp only
      rw [hfindr, someBind, hscan, someMap]
    obtain ⟨hfrON, q, hq, hqid⟩ := find_piece_spec hresfind
    obtain ⟨r', c', hr'8, hc'8, hat', hbl', hmv', hne'⟩ := hLgood pm' hpm'L
    have honrc : (⟨(r' : Int), (c' : Int)⟩ : Square).is_on_board = true := by
      rw [square_onboard_iff]
      dsimp only
      omega
    have heq : (⟨(r' : Int), (c' : Int)⟩ : Square) = res.2.2 :=
      wellFormed_eq hwf honrc hfrON hat' hq hqid.symm
    refine ⟨res.2.2, res.2.1, pm'.1, pm'.2, hbot, ?_, hbl', hmv', hres1, hne'⟩
    rw [← heq]
    exact hat'
  · intro hnone
    have hLnil : L = [] := by
      rw [List.eq_nil_iff_forall_not_mem]
      intro pm hpm
      obtain ⟨r, c, hr8, hc8, hat, hbl, hmv, hne⟩ := hLgood pm hpm
      exact hne (hnone r c pm.1 hr8 hc8 hat hbl pm.2 hmv)
    unfold Board.get_bot_move_squares
    rw [show botAllMoves b = some L from hL, someBind, hLnil]
    rfl

/-- The player of the occupant at row-major coordinates (witness
scaffolding). -/
def playerAt (b : Board) (r c : Nat) : Option Player :=
  match b.get_piece ⟨(r : Int), (c : Int)⟩ with
  | some (some p) => some p.player
  | _ => none

def blackPawnBot : Piece := ⟨PieceKind.pawn, Player.BLACK, false, 41⟩

def whitePawnBot : Piece := ⟨PieceKind.pawn, Player.WHITE, false, 42⟩

def boardBotW : Board :=
  ⟨gridPut (gridPut emptyGrid 5 4 blackPawnBot) 4 3 whitePawnBot,
    Player.BLACK, none⟩

def boardBotE : Board :=
  ⟨gridPut emptyGrid 4 3 whitePawnBot, Player.BLACK, none⟩

set_option maxRecDepth 40000 in
/-- Witness for C8: on a board where the black pawn on (5, 4) can move,
the bot returns a value; on a board with no black pieces it raises. -/
theorem C8_bot_move_selection_witness :
    (boardBotW.get_bot_move_squares 0).isSome = true ∧
    boardBotE.get_bot_move_squares 0 = none := by
  constructor
  · obtain ⟨fr, dest, piece, mvs, hbot, _⟩ :=
      (C8_bot_move_selection boardBotW 0 (by decide) (by decide)).1
        ⟨5, 4, blackPawnBot, [⟨4, 4⟩, ⟨4, 3⟩], by omega, by omega, by decide,
          rfl, by decide, by decide⟩
    rw [hbot]
    rfl
  · refine (C8_bot_move_selection boardBotE 0 (by decide) (by decide)).2 ?_
    intro r c p hr hc hgp hbl mv hmv
    have key : ∀ rc ∈ boardCoords, playerAt boardBotE rc.1 rc.2
        ≠ some Player.BLACK := by decide
    have hpa : playerAt boardBotE r c = some Player.BLACK := by
      unfold playerAt
      rw [hgp]
      dsimp only
      rw [hbl]
    exact absurd hpa (key (r, c) (mem_boardCoords.mpr ⟨hr, hc⟩))

end Chessington
